import Mathlib

/-! ## Verification of the signing backend (`src/server.js`)

Shallow embedding of the signing state machine, the PDF coordinate
resolver, the word wrapper, the template input mapper and the folder-name
normalizer, together with proofs about the spec's claims.

Modelling conventions:
* JS strings are `String`; absent/undefined string fields are the empty
  string `""` (matching JS falsiness checks in the code).
* Dates/timestamps are `Nat`; locale formatting is abstracted by
  injective rendering functions.
* JWT capability tokens are modelled by their decoded claim records
  (sign/verify round-trips; expiry is not modelled).
* The filesystem is an oracle `fsExists : String → Bool` carried in an
  environment record together with the fresh file names the code derives
  from `Date.now()`.
-/

namespace Bpo


/-- JS `a || b` for strings (empty string is falsy). -/
def jsOrS (a b : String) : String := if a = "" then b else a

/-! ## Coordinate resolver (`getSafePage`, src/server.js lines 301-313) -/

/-- The wanted page selector: an explicit 1-based page number or the
sentinel `'last'`. -/
inductive PageSel where
  | last : PageSel
  | num (n : Int) : PageSel
deriving DecidableEq, Repr

/-- Model of `getSafePage` (src/server.js lines 301-313), the zero-based page index it
computes.  JS `wantedPage || 1` maps `0` to `1`; then
`idx = Math.min(Math.max(0, wanted - 1), count - 1)`. -/
def getSafePageIdx (count : Nat) : PageSel → Int
  | .last => (count : Int) - 1
  | .num n =>
      let n1 : Int := if n = 0 then 1 else n
      let zero : Int := max 0 (n1 - 1)
      min zero ((count : Int) - 1)

/-! ## Signature coordinate resolution (`resolveSignatureCoords`,
src/server.js lines 315-327) and the stamper's drawn size
(`stampSignatureWithTime`, lines 373-393). -/

/-- A (possibly partial) placement spec, as appears in the template
registry (`clientSig`/`directorSig`) and in caller-supplied overrides.
`none` models an absent JS object property. -/
structure SigSpec where
  page : Option PageSel := none
  x : Option Int := none
  y : Option Int := none
  width : Option Int := none
  height : Option Int := none
  origin : Option String := none
deriving DecidableEq, Repr

/-- A loaded PDF page's geometry (`page.getWidth()` / `page.getHeight()`). -/
structure PdfPage where
  width : Int
  height : Int
deriving DecidableEq, Repr

/-- JS `v || d` for a number that may be absent: `0`, like `undefined`,
is falsy and falls back to the default. -/
def jsNumOr (v : Option Int) (d : Int) : Int :=
  match v with
  | none => d
  | some x => if x = 0 then d else x

/-- The geometry `resolveSignatureCoords` resolves. -/
structure ResolvedCoords where
  pageSel : PageSel
  x : Int
  y : Int
  width : Int
  height : Int
  origin : String
deriving DecidableEq, Repr

/-- Model of `resolveSignatureCoords` (src/server.js lines 315-327): merge override
over template field-by-field (JS object spread), default page `'last'`,
width `Math.max(1, merged.width || 150)`, height
`Math.max(1, merged.height || 50)`, origin `'top-left'`, and clamp x/y into
the page box. -/
def resolveSignatureCoords (pages : List PdfPage) (tc oc : SigSpec) :
    ResolvedCoords :=
  let merged : SigSpec :=
    { page := oc.page.orElse fun _ => tc.page
      x := oc.x.orElse fun _ => tc.x
      y := oc.y.orElse fun _ => tc.y
      width := oc.width.orElse fun _ => tc.width
      height := oc.height.orElse fun _ => tc.height
      origin := oc.origin.orElse fun _ => tc.origin }
  let pageSel := merged.page.getD .last
  let idx := getSafePageIdx pages.length pageSel
  let p := pages.getD idx.toNat ⟨0, 0⟩
  let width := max 1 (jsNumOr merged.width 150)
  let height := max 1 (jsNumOr merged.height 50)
  let x0 := merged.x.getD 0
  let y0 := merged.y.getD 0
  { pageSel := pageSel
    x := min (max 0 x0) (p.width - width)
    y := min (max 0 y0) (p.height - height)
    width := width
    height := height
    origin := merged.origin.getD "top-left" }

/-- The width/height `stampSignatureWithTime` draws the embedded signature
image with (src/server.js lines 380-381):
`const width = coords.width || png.width; const height = coords.height || png.height;`
where `pngW`/`pngH` are the image's native pixel dimensions. -/
def stampDrawnSize (pages : List PdfPage) (tc oc : SigSpec)
    (pngW pngH : Int) : Int × Int :=
  let coords := resolveSignatureCoords pages tc oc
  (if coords.width = 0 then pngW else coords.width,
   if coords.height = 0 then pngH else coords.height)

/-- The all-absent placement spec (a JS `{}` / undefined override). -/
def emptySpec : SigSpec := {}

/-! ## Field renderer word wrap (`wrapLines`, src/server.js lines 335-347) -/

/-- ASCII whitespace matched by the JS `\s` class. -/
def isWsChar (c : Char) : Bool :=
  c = ' ' || c = '\t' || c = '\n' || c = '\r' || c = '\x0b' || c = '\x0c'

/-- Worker for `String(text).split(/\s+/)`: split at maximal whitespace
runs.  As in JS, leading (resp. trailing) whitespace contributes an empty
first (resp. last) element and the empty string yields `[""]`. -/
def splitWsGo : List Char → List Char → List String
  | [], acc => [String.mk acc.reverse]
  | c :: cs, acc =>
    if isWsChar c then
      match cs with
      | [] => [String.mk acc.reverse, ""]
      | c2 :: cs2 =>
        if isWsChar c2 then splitWsGo (c2 :: cs2) acc
        else String.mk acc.reverse :: splitWsGo (c2 :: cs2) []
    else splitWsGo cs (c :: acc)

/-- JS `String(text).split(/\s+/)`. -/
def splitWs (text : String) : List String := splitWsGo text.data []

/-- One iteration of the greedy wrap loop (src/server.js lines 340-344):
the state is (emitted lines, current line); `test = line ? line+' '+w : w`;
keep `test` if it measures within `maxWidth`, otherwise flush the current
line (when non-empty) and start a new line at `w`. -/
def wrapStep (widthOf : String → Nat) (maxWidth : Nat)
    (st : List String × String) (w : String) : List String × String :=
  let test := if st.2 = "" then w else st.2 ++ " " ++ w
  if widthOf test ≤ maxWidth then (st.1, test)
  else if st.2 = "" then (st.1, w) else (st.1 ++ [st.2], w)

/-- The final `if (line) lines.push(line)` of `wrapLines`. -/
def wrapFinish (st : List String × String) : List String :=
  if st.2 = "" then st.1 else st.1 ++ [st.2]

/-- Model of `wrapLines` (src/server.js lines 335-347).  The pdf-lib font metric
`font.widthOfTextAtSize(·, size)` is abstracted as `widthOf` (the font and
size are fixed inside one call).  JS `if (!maxWidth) return [text]` is the
`maxWidth = 0` case. -/
def wrapLines (widthOf : String → Nat) (text : String) (maxWidth : Nat) :
    List String :=
  if maxWidth = 0 then [text]
  else wrapFinish ((splitWs text).foldl (wrapStep widthOf maxWidth) ([], ""))

/-- Space-joining of a word group exactly as the wrap loop builds a line:
`line ? line + ' ' + w : w`, folded from the left. -/
def joinSp (ws : List String) : String :=
  ws.foldl (fun a w => if a = "" then w else a ++ " " ++ w) ""

/-- Invariant carried through the wrap loop over the words consumed so
far: every emitted line is non-empty and either fits `maxWidth` or is a
single input word, the pending line satisfies the same bound, and the
lines (plus the pending line) are the space-joins of a partition of the
consumed words. -/
def WrapInv (widthOf : String → Nat) (maxWidth : Nat)
    (consumed : List String) (st : List String × String) : Prop :=
  (∀ l ∈ st.1, l ≠ "" ∧ (widthOf l ≤ maxWidth ∨ l ∈ consumed)) ∧
  (st.2 = "" ∨ widthOf st.2 ≤ maxWidth ∨ st.2 ∈ consumed) ∧
  ∃ (gs : List (List String)) (g : List String),
      st.1 = (gs.map joinSp).filter (fun l => l != "") ∧
      st.2 = joinSp g ∧ gs.flatten ++ g = consumed

/-! ## Folder-name normalizer (`safeFolderName`, src/server.js lines 288-298) -/

/-- A character kept by the class `[^\w\-]` of the first replace:
JS `\w` is `[A-Za-z0-9_]`, plus the hyphen. -/
def keepChar (c : Char) : Bool := c.isAlpha || c.isDigit || c = '_' || c = '-'

/-- Model of `.replace(/[^\w\-]/g, ' ')`. -/
def replaceNonWord (l : List Char) : List Char :=
  l.map fun c => if keepChar c then c else ' '

/-- Model of `.replace(/\s+/g, ' ')`: each maximal whitespace run becomes one
space. -/
def collapseWs : List Char → List Char
  | [] => []
  | [c] => if isWsChar c then [' '] else [c]
  | c :: c2 :: cs =>
    if isWsChar c then
      if isWsChar c2 then collapseWs (c2 :: cs)
      else ' ' :: collapseWs (c2 :: cs)
    else c :: collapseWs (c2 :: cs)

/-- JS `String.prototype.trim`. -/
def trimWs (l : List Char) : List Char :=
  ((l.dropWhile isWsChar).reverse.dropWhile isWsChar).reverse

/-- Model of `.replace(/[.#]+$/g, '')`. -/
def stripTrailingDotHash (l : List Char) : List Char :=
  (l.reverse.dropWhile fun c => c = '.' || c = '#').reverse

/-- Model of `.replace(/^\.+/g, '')`. -/
def stripLeadingDots (l : List Char) : List Char :=
  l.dropWhile fun c => c = '.'

/-- The normalization pipeline of `safeFolderName` (src/server.js lines
289-294): NFKD-normalize (the Unicode normalization is kept abstract as a
parameter `nfkd`), replace non-word characters by spaces, collapse
whitespace runs, trim, then strip trailing dots/hashes and leading dots. -/
def normalizePart (nfkd : String → String) (name : String) : List Char :=
  stripLeadingDots (stripTrailingDotHash
    (trimWs (collapseWs (replaceNonWord (nfkd name).data))))

/-- The candidate folder name after the `forms`/empty fallback check of
`safeFolderName` (src/server.js line 295): the normalized input, or
`"Client"` when the normalization is empty or case-insensitively
`"forms"`. -/
def folderCandidate (nfkd : String → String) (name : String) : List Char :=
  if normalizePart nfkd (if name = "" then "Client" else name) = [] ∨
     (normalizePart nfkd (if name = "" then "Client" else name)).map
       Char.toLower = "forms".data
  then "Client".data
  else normalizePart nfkd (if name = "" then "Client" else name)

/-- Model of `safeFolderName` (src/server.js lines 288-298).  A missing argument is
the empty string (JS default parameter plus `name || 'Client'`); the final
step is the length cap `if (s.length > 100) s = s.slice(0, 100).trim()`. -/
def safeFolderName (nfkd : String → String) (name : String) : String :=
  if 100 < (folderCandidate nfkd name).length
  then String.mk (trimWs ((folderCandidate nfkd name).take 100))
  else String.mk (folderCandidate nfkd name)

/-- A character that can survive the replace/collapse pipeline: a kept
word character or a space. -/
def okChar (c : Char) : Bool := keepChar c || c = ' '

/-! ## Template input mapper (`buildTemplateInput`, src/server.js
lines 537-607)

The agreement record is `agreement.toObject()`; all its text fields are
plain strings (empty when unset, making every `x || ''` in the code the
identity).  The submission timestamp is `Option Nat` (epoch time, `none`
when unset so that `agreementData.submittedAt || Date.now()` falls back to
the clock).  Prices are modelled as whole dollars (`Int`); `toFixed(2)`
renders them with a `.00` suffix.  Locale renderings of dates are
abstracted as injective functions of the timestamp. -/

/-- The fields of an agreement record read by `buildTemplateInput`. -/
structure AgreementData where
  businessName : String := ""
  tradingName : String := ""
  clientFullName : String := ""
  dateOfBirth : String := ""
  email : String := ""
  phone : String := ""
  registeredOffice : String := ""
  registeredPostCode : String := ""
  postalAddress : String := ""
  postalPostCode : String := ""
  businessAddress : String := ""
  businessPostCode : String := ""
  departmentContact : String := ""
  contactNumber : String := ""
  departmentEmail : String := ""
  officeNumber : String := ""
  nameOfDirector : String := ""
  addressOfDirector : String := ""
  driversLicense : String := ""
  acn_abn : String := ""
  mainService : String := ""
  contractStartDate : String := ""
  businessType : String := ""
  ACN : String := ""
  ABN : String := ""
  address : String := ""
  city : String := ""
  state : String := ""
  postalCode : String := ""
  website : String := ""
  additionalNotes : String := ""
  submittedAt : Option Nat := none
deriving DecidableEq, Repr

/-- A pricing summary's plan (`summaryData.plan`): the name may be unset;
the price is present exactly when `typeof price === 'number'`. -/
structure SummaryPlan where
  name : Option String := none
  price : Option Int := none
deriving DecidableEq, Repr

/-- One pricing summary add-on. -/
structure SummaryAddOn where
  name : String
  price : Int
deriving DecidableEq, Repr

/-- The fields of a pricing `Summary` record read by
`buildTemplateInput`. -/
structure SummaryData where
  service : String := ""
  plan : Option SummaryPlan := none
  addOns : List SummaryAddOn := []
  total : Option Int := none
deriving DecidableEq, Repr

/-- Model of `Date.prototype.toLocaleString` for epoch `t`, abstracted as an
injective rendering (the exact locale format is irrelevant to the
claims). -/
def jsLocaleString (t : Nat) : String := "t" ++ toString t

/-- Model of `Date.prototype.toLocaleDateString` for epoch `t`, abstracted. -/
def jsLocaleDateString (t : Nat) : String := "d" ++ toString t

/-- JS `number.toFixed(2)` for a whole-dollar amount. -/
def toFixed2 (n : Int) : String := toString n ++ ".00"

/-- JS `s.split(',')[0]`: the prefix up to the first comma. -/
def beforeComma (s : String) : String :=
  String.mk (s.data.takeWhile fun c => c != ',')

/-- Model of `buildTemplateInput` (src/server.js lines 537-607): the flat key-value
record handed to the field renderer, as an association list in the
code's assignment order.  `now` is the clock (`Date.now()` /
`new Date()`) at the moment of the call. -/
def buildTemplateInput (templateName : String) (a : AgreementData)
    (s : Option SummaryData) (now : Nat) : List (String × String) :=
  let submittedAtS := jsLocaleString (a.submittedAt.getD now)
  let dateOnly := beforeComma submittedAtS
  let base : List (String × String) :=
    [("businessName", a.businessName),
     ("tradingName", a.tradingName),
     ("clientFullName", a.clientFullName),
     ("dateOfBirth", a.dateOfBirth),
     ("email", a.email),
     ("phone", a.phone),
     ("registeredOffice", a.registeredOffice),
     ("registeredPostCode", a.registeredPostCode),
     ("postalAddress", a.postalAddress),
     ("postalPostCode", a.postalPostCode),
     ("businessAddress", a.businessAddress),
     ("businessPostCode", a.businessPostCode),
     ("departmentContact", a.departmentContact),
     ("contactNumber", a.contactNumber),
     ("departmentEmail", a.departmentEmail),
     ("officeNumber", a.officeNumber),
     ("nameOfDirector", a.nameOfDirector),
     ("addressOfDirector", a.addressOfDirector),
     ("driversLicense", a.driversLicense),
     ("acn_abn", a.acn_abn),
     ("mainService", a.mainService),
     ("contractStart", a.contractStartDate),
     ("contractStartDate", a.contractStartDate),
     ("businessType", a.businessType),
     ("ACN", a.ACN),
     ("ABN", a.ABN),
     ("address", a.address),
     ("city", a.city),
     ("state", a.state),
     ("postalCode", a.postalCode),
     ("website", a.website),
     ("additionalNotes", a.additionalNotes),
     ("submittedAt", submittedAtS),
     ("companyName", a.businessName),
     ("dearName", a.businessName),
     ("customerName", a.businessName),
     ("clientEmail", a.email),
     ("mobileNumber", a.phone),
     ("postCode", jsOrS a.registeredPostCode
        (jsOrS a.postalPostCode a.businessPostCode)),
     ("p4CompanyName", a.businessName),
     ("servicesAssist", a.mainService),
     ("directorName", a.nameOfDirector),
     ("p5ClientName", a.clientFullName),
     ("p5OtherName", a.nameOfDirector),
     ("p5Date1", dateOnly),
     ("p5Date2", dateOnly),
     ("guarantorCompany", a.businessName),
     ("guarantorACNABN", jsOrS a.ACN (jsOrS a.ABN a.acn_abn))]
  let withPricing :=
    if templateName = "PricingSchedule" then
      match s with
      | some sd =>
        base ++
          [("service", jsOrS sd.service a.mainService),
           ("planName", (sd.plan.bind (fun p => p.name)).getD ""),
           ("planPrice",
             match sd.plan.bind (fun p => p.price) with
             | some pr => "$" ++ toFixed2 pr
             | none => ""),
           ("addOnsSummary", String.intercalate ", "
             (sd.addOns.map fun ad =>
               ad.name ++ " ($" ++ toString ad.price ++ ")")),
           ("total",
             match sd.total with
             | some t => "$" ++ toFixed2 t
             | none => "")]
      | none => base
    else base
  if templateName = "ConfidentialityAgreement" then
    withPricing ++ [("executedDate", jsLocaleDateString now)]
  else withPricing

/-! ## Signing state machine

Persistent state (`Agreement`/`AgreementDoc`/`DirectorSlot` mirror the
Mongoose schemas of src/server.js lines 176-260); the two mutation
endpoints `POST /api/sign/:token` (lines 973-1086) and
`POST /api/sign-director/:token` (lines 1100-1201), the self-healer
`ensureDraftExists` (lines 516-534) and the preview endpoint's state
effect (lines 942-970).

JWT tokens are represented by their decoded claim records (`jwt.sign` /
`jwt.verify` round-trip; expiry is not modelled).  Mail sending and the
SharePoint archival push do not touch the agreement record and are
omitted.  Unset string fields are `""` (undefined is falsy exactly like
`''` in every check the code performs on them). -/

/-- Decoded JWT claims of a capability token:
`{ agid, role, docName, directorIndex }`.  Client tokens carry no
`directorIndex`; the director route defaults it to 0
(`const { agid, docName, directorIndex = 0 } = decoded`), so the field
defaults to 0 here. -/
structure TokenClaims where
  agid : String
  role : String
  docName : String
  directorIndex : Nat := 0
deriving DecidableEq, Repr

/-- Model of `directorSlotSchema` (src/server.js lines 176-186), the fields the
routes use. -/
structure DirectorSlot where
  email : String := ""
  directorSignToken : Option TokenClaims := none
  signatureImagePath : String := ""
  signature : String := ""
  signed : Bool := false
  signedDate : Option Nat := none
deriving DecidableEq, Repr

/-- Model of `agreementDocumentSchema` (src/server.js lines 188-207), the fields
the routes use. -/
structure AgreementDoc where
  name : String := ""
  draftPdfPath : String := ""
  clientSignedPdfPath : String := ""
  finalSignedPdfPath : String := ""
  clientSignatureImagePath : String := ""
  clientSignToken : Option TokenClaims := none
  clientSigned : Bool := false
  clientSignedDate : Option Nat := none
  clientSignature : String := ""
  directors : List DirectorSlot := []
deriving DecidableEq, Repr

/-- Model of `agreementSchema` (src/server.js lines 209-260): the signing state;
the many business/contact text fields not read by the signing routes are
omitted except those the routes use (`businessName`, `email`). -/
structure Agreement where
  id : String := ""
  businessName : String := ""
  email : String := ""
  documents : List AgreementDoc := []
  clientSignToken : Option TokenClaims := none
  clientSigned : Bool := false
  directorSigned : Bool := false
  clientSignedDate : Option Nat := none
  directorSignedDate : Option Nat := none
deriving DecidableEq, Repr

/-- One entry of the template registry (src/server.js lines 396-494):
name, backing PDF file, and the signature anchors.  The field maps are
not modelled (they only feed the field renderer, which draws onto files
and never touches agreement state). -/
structure Template where
  name : String
  path : String
  clientSig : SigSpec
  directorSig : Option SigSpec := none
  director1Sig : Option SigSpec := none
deriving DecidableEq, Repr

/-- Anchor spec literal `{ page, x, y, width: 150, height: 50, origin:
'top-left' }` as the registry writes them. -/
def anchor (page x y : Int) : SigSpec :=
  { page := some (.num page), x := some x, y := some y,
    width := some 150, height := some 50, origin := some "top-left" }

/-- The fixed registry `TEMPLATES` (src/server.js lines 396-494), with
the concrete signature anchors from the source. -/
def TEMPLATES : List Template :=
  [{ name := "ServiceAgreement", path := "Engagement-letter.pdf",
     clientSig := anchor 4 338 125,
     directorSig := some (anchor 4 338 72) },
   { name := "CustomerInformation", path := "guarantee-page.pdf",
     clientSig := anchor 1 338 125,
     directorSig := some (anchor 1 64 466),
     director1Sig := some (anchor 1 350 466) },
   { name := "PricingSchedule", path := "privacy-policy.pdf",
     clientSig := anchor 1 420 90,
     directorSig := some (anchor 1 420 40) },
   { name := "ConfidentialityAgreement", path := "terms.pdf",
     clientSig := anchor 4 380 80,
     directorSig := some (anchor 4 63 466),
     director1Sig := some (anchor 4 350 466) }]

/-- Model of `getDirectorSigSpec` (src/server.js lines 609-620): anchor for
director 0 is the template's primary anchor; director 1 uses the explicit
secondary anchor or derives one by `y + 60`; any other index falls back
to whichever anchor exists. -/
def getDirectorSigSpec (t? : Option Template) (directorIndex : Nat) :
    Option SigSpec :=
  match t? with
  | none => none
  | some t =>
    if directorIndex = 0 ∧ t.directorSig.isSome then t.directorSig
    else if directorIndex = 1 then
      match t.director1Sig, t.directorSig with
      | some s, _ => some s
      | none, some d => some { d with y := d.y.map fun v => v + 60 }
      | none, none => none
    else t.directorSig.orElse fun _ => t.director1Sig

/-- Model of `path.join(PDF_TEMPLATES_DIR, p)`. -/
def templateFullPath (p : String) : String := "pdf-templates/" ++ p

/-- The ambient world of one request: filesystem oracle, clock, the
fresh output file names the code builds from `Date.now()`, and the
configured director emails (`getDirectorEmails`, src/server.js
lines 764-769). -/
structure Env where
  fsExists : String → Bool
  now : Nat
  freshDraft : String
  sigPath : String
  outFile : String
  directorEmails : List String

/-- The observable outcome of a signing request: the HTTP response the
route sends.  `badRequest`/`forbidden`/`notFound`/`serverError` carry the
JSON `message`; the spec's error taxonomy labels the `badRequest`
rejections of violated signing preconditions ("already signed",
"client must sign first") as Conflict. -/
inductive SignResult where
  | badRequest (msg : String)
  | forbidden (msg : String)
  | notFound (msg : String)
  | serverError (msg : String)
  | nextDocToken (tok : TokenClaims)
  | complete
  | done
deriving DecidableEq, Repr

/-- Replace the first element satisfying `p` by its image under `f`
(mutation of the element returned by `Array.prototype.find`, then
`save()`). -/
def updateFirst {α : Type} (p : α → Bool) (f : α → α) : List α → List α
  | [] => []
  | x :: xs => if p x then f x :: xs else x :: updateFirst p f xs

/-- Helper: `List.map` with the element index, starting at `i`. -/
def mapIdxFrom {α β : Type} (f : Nat → α → β) : Nat → List α → List β
  | _, [] => []
  | i, x :: xs => f i x :: mapIdxFrom f (i + 1) xs

/-- Model of `ensureDraftExists` (src/server.js lines 516-534): regenerate a draft
PDF for the named document.  Returns `none` when it throws (template not
registered, or template file missing); otherwise the fresh draft path and
the saved agreement, in which the document's `draftPdfPath` is set to the
fresh path **only if it was previously empty**
(`if (!doc.draftPdfPath) doc.draftPdfPath = outDraft`).  The `Summary`
lookup and the actual `drawFieldsOnPdf` call only touch files, not the
agreement record. -/
def ensureDraftExists (env : Env) (ag : Agreement) (docName : String) :
    Option (String × Agreement) :=
  match TEMPLATES.find? (fun t => t.name == docName) with
  | none => none
  | some t =>
    if env.fsExists (templateFullPath t.path) then
      some (env.freshDraft,
        { ag with documents := (updateFirst (fun d => d.name == docName)
            (fun d => if d.draftPdfPath = ""
                      then { d with draftPdfPath := env.freshDraft }
                      else d)
            ag.documents) })
    else none

/-- The self-heal block of the client-sign route (src/server.js lines
999-1005): if the draft path is unset or its file is gone, regenerate and
then store the regenerated path on the document **unconditionally**
(`doc.draftPdfPath = inFile; await ag.save()`). -/
def healClientDraft (env : Env) (ag : Agreement) (doc : AgreementDoc) :
    Option Agreement :=
  if doc.draftPdfPath ≠ "" && env.fsExists doc.draftPdfPath then some ag
  else
    match ensureDraftExists env ag doc.name with
    | none => none
    | some (f, ag1) =>
      some { ag1 with documents := (updateFirst (fun d => d.name == doc.name)
          (fun d => { d with draftPdfPath := f }) ag1.documents) }

/-- The per-document mutation of a successful client signature
(src/server.js lines 1016-1020). -/
def stampClientDoc (env : Env) (signature : String)
    (d : AgreementDoc) : AgreementDoc :=
  { d with clientSignatureImagePath := env.sigPath
           clientSignedPdfPath := env.outFile
           clientSigned := true
           clientSignature := signature
           clientSignedDate := some env.now }

/-- The director slots created for one document when the client phase
completes (src/server.js lines 1040-1049): one slot per configured
director email, each with a fresh token for its index and `signed:
false`. -/
def mkDirectorSlots (agid docName : String) (emails : List String) :
    List DirectorSlot :=
  mapIdxFrom
    (fun idx email =>
      { email := email
        directorSignToken := some
          { agid := agid, role := "director", docName := docName,
            directorIndex := idx }
        signed := false })
    0 emails

/-- The document list after the current document was stamped by a client
signature (src/server.js lines 1016-1021). -/
def clientStamped (env : Env) (ag1 : Agreement) (docName signature : String) :
    List AgreementDoc :=
  updateFirst (fun d => d.name == docName) (stampClientDoc env signature)
    ag1.documents

/-- The document list after the freshly minted client token for the next
unsigned document was persisted on it (src/server.js lines 1026-1031). -/
def withNextClientTok (agid nextName : String) (docs : List AgreementDoc) :
    List AgreementDoc :=
  updateFirst (fun d => d.name == nextName)
    (fun d => { d with clientSignToken := some ⟨agid, "client", nextName, 0⟩ })
    docs

/-- The document list after director slots were created on every
document (src/server.js lines 1040-1049). -/
def withDirectorSlots (agid : String) (emails : List String)
    (docs : List AgreementDoc) : List AgreementDoc :=
  docs.map fun d => { d with directors := mkDirectorSlots agid d.name emails }

/-- The tail of the client-sign route after all precondition checks and
the self-heal succeeded (src/server.js lines 1007-1081): stamp the
document, then either mint and persist a client token for the first
still-unsigned document, or create the director slots on every document,
set the agreement-level client flag and report completion. -/
def clientSignFinish (env : Env) (ag1 : Agreement) (agid docName : String)
    (signature : String) : SignResult × Agreement :=
  match (clientStamped env ag1 docName signature).find?
      (fun d => !d.clientSigned) with
  | some nextDoc =>
    (.nextDocToken ⟨agid, "client", nextDoc.name, 0⟩,
     { ag1 with documents := (withNextClientTok agid nextDoc.name
        (clientStamped env ag1 docName signature)) })
  | none =>
    (.complete,
     { ag1 with
        documents := (withDirectorSlots agid env.directorEmails
          (clientStamped env ag1 docName signature)),
        clientSigned := true,
        clientSignedDate := some env.now })

/-- Model of `POST /api/sign/:token` (src/server.js lines 973-1086).  Returns the
response and the persisted agreement state afterwards. -/
def clientSign (env : Env) (ag : Agreement) (c : TokenClaims)
    (signature : String) : SignResult × Agreement :=
  if signature = "" then (.badRequest "Missing signature", ag)
  else if c.role ≠ "client" then (.forbidden "Wrong link", ag)
  else if c.agid ≠ ag.id then (.notFound "Agreement not found", ag)
  else
    match ag.documents.find? (fun d => d.name == c.docName) with
    | none => (.notFound "Document not found", ag)
    | some doc =>
      if doc.clientSigned then (.badRequest "Document already signed", ag)
      else if (TEMPLATES.find? (fun t => t.name == doc.name)).isNone then
        (.serverError ("Template not found for " ++ doc.name), ag)
      else
        match healClientDraft env ag doc with
        | none => (.serverError "draft regeneration failed", ag)
        | some ag1 => clientSignFinish env ag1 ag.id doc.name signature

/-- The per-slot mutation of a successful director signature
(src/server.js lines 1145-1148). -/
def stampDirectorSlot (env : Env) (signature : String)
    (s : DirectorSlot) : DirectorSlot :=
  { s with signatureImagePath := env.sigPath
           signature := signature
           signed := true
           signedDate := some env.now }

/-- The `nextDoc` predicate of the director route (src/server.js lines
1156-1158): a client-signed document whose slot at this director's index
exists and is still unsigned. -/
def directorNextPred (directorIndex : Nat) (d : AgreementDoc) : Bool :=
  d.clientSigned &&
    (match d.directors[directorIndex]? with
     | some s => !s.signed
     | none => false)

/-- Model of `allDirectorsComplete` (src/server.js lines 1171-1173). -/
def allDirectorsComplete (docs : List AgreementDoc) : Bool :=
  docs.all fun d =>
    d.clientSigned && !d.directors.isEmpty && d.directors.all (·.signed)

/-- The claims of a director capability token (src/server.js lines
1043-1045 and 1161-1164). -/
def dirTok (agid docName : String) (dIdx : Nat) : TokenClaims :=
  { agid := agid, role := "director", docName := docName,
    directorIndex := dIdx }

/-- The document list after a freshly minted director token was persisted
on the next pending document's slot (src/server.js lines 1160-1166). -/
def withNextDirectorTok (agid nextName : String) (dIdx : Nat)
    (s : DirectorSlot) (docs : List AgreementDoc) : List AgreementDoc :=
  updateFirst (fun d => d.name == nextName)
    (fun d => { d with directors := (d.directors.set dIdx
        { s with directorSignToken := some (dirTok agid nextName dIdx) }) })
    docs

/-- The tail of the director-sign route after the slot was stamped and
saved (src/server.js lines 1156-1196): chain to this director's next
pending document (minting its token if the slot has none), or — when the
full cross product of slots is signed — set the agreement-level director
flag and report completion, else report `done`. -/
def directorSignFinish (env : Env) (ag1 : Agreement) (agid : String)
    (directorIndex : Nat) : SignResult × Agreement :=
  match ag1.documents.find? (directorNextPred directorIndex) with
  | some nextDoc =>
    match nextDoc.directors[directorIndex]? with
    | none =>
      -- unreachable given the find predicate; in JS a property read on
      -- `undefined` would throw and surface as the route's 500 handler
      (.serverError "internal error", ag1)
    | some s =>
      match s.directorSignToken with
      | some tok => (.nextDocToken tok, ag1)
      | none =>
        (.nextDocToken (dirTok agid nextDoc.name directorIndex),
         { ag1 with documents := (withNextDirectorTok agid nextDoc.name
            directorIndex s ag1.documents) })
  | none =>
    if allDirectorsComplete ag1.documents then
      (.complete,
       { ag1 with directorSigned := true, directorSignedDate := some env.now })
    else (.done, ag1)

/-- The base PDF the director stamp is applied onto (src/server.js lines
1134-1136): an existing final-signed artifact, else the client-signed
artifact. -/
def directorBasePdf (env : Env) (doc : AgreementDoc) : String :=
  if doc.finalSignedPdfPath ≠ "" && env.fsExists doc.finalSignedPdfPath
  then doc.finalSignedPdfPath else doc.clientSignedPdfPath

/-- The document list after the director slot at `dIdx` was stamped and
the document's final artifact path updated (src/server.js lines
1145-1150). -/
def directorStamped (env : Env) (ag : Agreement) (docName : String)
    (dIdx : Nat) (dstate : DirectorSlot) (signature : String) :
    List AgreementDoc :=
  updateFirst (fun d => d.name == docName)
    (fun d =>
      { d with
        directors := (d.directors.set dIdx
          (stampDirectorSlot env signature dstate)),
        finalSignedPdfPath := env.outFile })
    ag.documents

/-- Model of `POST /api/sign-director/:token` (src/server.js lines 1100-1201).
Returns the response and the persisted agreement state afterwards. -/
def directorSign (env : Env) (ag : Agreement) (c : TokenClaims)
    (signature : String) : SignResult × Agreement :=
  if signature = "" then (.badRequest "Missing signature", ag)
  else if c.role ≠ "director" then (.forbidden "Wrong link", ag)
  else if c.agid ≠ ag.id then (.notFound "Agreement not found", ag)
  else
    match ag.documents.find? (fun d => d.name == c.docName) with
    | none => (.badRequest "Invalid document token", ag)
    | some doc =>
      if !doc.clientSigned then (.badRequest "Client must sign first", ag)
      else
        match doc.directors[c.directorIndex]? with
        | none =>
          (.badRequest ("Director index " ++ toString c.directorIndex ++
            " not configured for this document."), ag)
        | some dstate =>
          if dstate.signed then
            (.badRequest "Document already signed by you", ag)
          else
            match getDirectorSigSpec
                (TEMPLATES.find? (fun t => t.name == doc.name))
                c.directorIndex with
            | none =>
              (.serverError ("No signature coords for director #" ++
                toString (c.directorIndex + 1)), ag)
            | some _sigSpec =>
              if directorBasePdf env doc = "" ||
                 !env.fsExists (directorBasePdf env doc) then
                (.serverError ("Base PDF missing for " ++ doc.name), ag)
              else
                directorSignFinish env
                  { ag with documents := (directorStamped env ag doc.name
                      c.directorIndex dstate signature) }
                  ag.id c.directorIndex

/-- The stage artifact the preview route prefers for a role
(src/server.js lines 954-956). -/
def previewFilePath (doc : AgreementDoc) (role : String) : String :=
  if role == "client" then
    jsOrS (jsOrS doc.clientSignedPdfPath doc.draftPdfPath)
      doc.finalSignedPdfPath
  else
    jsOrS (jsOrS doc.finalSignedPdfPath doc.clientSignedPdfPath)
      doc.draftPdfPath

/-- The state effect of `GET /api/sign/preview/:token` (src/server.js
lines 942-970): when the stage artifact preferred for the token's role is
missing, the route self-heals via `ensureDraftExists` (which saves the
agreement); otherwise the state is untouched.  `docName = ""` models a
token without a `docName` claim (the route then falls back to
`documents[0]`). -/
def previewState (env : Env) (ag : Agreement) (c : TokenClaims) :
    Agreement :=
  match (if c.docName ≠ "" then
          ag.documents.find? (fun d => d.name == c.docName)
        else ag.documents.head?) with
  | none => ag
  | some doc =>
    if previewFilePath doc c.role ≠ "" &&
       env.fsExists (previewFilePath doc c.role) then ag
    else
      match ensureDraftExists env ag doc.name with
      | some (_, ag1) => ag1
      | none => ag

/-- The agreement created by `POST /api/submit-agreement` (src/server.js
lines 831-939): one document per registry template, drafts generated,
client tokens minted, all signing flags false and no director slots. -/
def initAgreement (id biz email : String) (draftOf : String → String) :
    Agreement :=
  let documents := TEMPLATES.map fun t =>
    { name := t.name
      draftPdfPath := draftOf t.name
      clientSigned := false
      clientSignToken := some { agid := id, role := "client", docName := t.name }
      directors := [] : AgreementDoc }
  { id := id
    businessName := biz
    email := email
    documents := documents
    clientSignToken := (documents.head?).bind (fun d => d.clientSignToken)
    clientSigned := false
    directorSigned := false }

/-- The agreement states reachable through the signing workflow: freshly
submitted agreements, then any interleaving of client-sign requests,
director-sign requests and self-healing previews, with arbitrary
environments, tokens and signatures. -/
inductive Reachable : Agreement → Prop
  | init (id biz email : String) (draftOf : String → String) :
      Reachable (initAgreement id biz email draftOf)
  | clientStep (env : Env) (c : TokenClaims) (sig : String) {ag : Agreement} :
      Reachable ag → Reachable (clientSign env ag c sig).2
  | directorStep (env : Env) (c : TokenClaims) (sig : String) {ag : Agreement} :
      Reachable ag → Reachable (directorSign env ag c sig).2
  | previewStep (env : Env) (c : TokenClaims) {ag : Agreement} :
      Reachable ag → Reachable (previewState env ag c)

/-- A concrete environment for witnesses. -/
def envW : Env :=
  { fsExists := fun _ => false, now := 0, freshDraft := "fresh.pdf",
    sigPath := "sig.png", outFile := "out.pdf", directorEmails := ["d@x"] }

/-- A signed director slot for witnesses. -/
def slotW : DirectorSlot := { email := "d@x", signed := true }

/-- A fully client-signed document with one signed director slot. -/
def docSignedW : AgreementDoc :=
  { name := "ServiceAgreement", clientSigned := true, directors := [slotW] }

/-- A one-document agreement for witnesses. -/
def agW : Agreement := { id := "A1", documents := [docSignedW] }

/-- An unsigned document for witnesses. -/
def docUnsignedW : AgreementDoc := { name := "ServiceAgreement" }

/-- A one-document agreement in the pre-client state. -/
def agUnsignedW : Agreement := { id := "A1", documents := [docUnsignedW] }

/-! ### C5: the self-healer's fill-if-empty contract -/

/-- Environment for the C5 counterexample: the stale draft `old.pdf` is
gone from disk but the `ServiceAgreement` template file exists. -/
def envC5 : Env :=
  { fsExists := fun p => p == "pdf-templates/Engagement-letter.pdf",
    now := 0, freshDraft := "regen.pdf", sigPath := "sig.png",
    outFile := "signed.pdf", directorEmails := ["d@x"] }

/-- A document whose `draftPdfPath` is set but whose file is missing. -/
def docC5 : AgreementDoc :=
  { name := "ServiceAgreement", draftPdfPath := "old.pdf" }

/-- A one-document agreement for the C5 counterexample. -/
def agC5 : Agreement := { id := "A1", documents := [docC5] }

/-! ### C3: the next action after a successful client signature -/

/-- The identity of a document for the client chain: its name and client
flag (the self-heal steps change neither). -/
def docKey (d : AgreementDoc) : String × Bool := (d.name, d.clientSigned)

/-! ### C4: the aggregate signed flags

The invariant `Inv` is maintained by every reachable transition; its two
flag equalities are exactly the claim. -/

/-- Every document is client-signed. -/
def docsAllClient (ds : List AgreementDoc) : Bool :=
  ds.all fun d => d.clientSigned

/-- Every document has a non-empty, fully signed director-slot list. -/
def docsAllDirectors (ds : List AgreementDoc) : Bool :=
  ds.all fun d => !d.directors.isEmpty && d.directors.all (fun s => s.signed)

/-- The inductive invariant of the signing workflow: the document list is
non-empty, the aggregate flags mirror the per-document state, and
director slots exist only once the client phase completed. -/
def Inv (ag : Agreement) : Prop :=
  ag.documents ≠ [] ∧
  ag.clientSigned = docsAllClient ag.documents ∧
  ag.directorSigned = docsAllDirectors ag.documents ∧
  (∀ d ∈ ag.documents, d.directors ≠ [] → ag.clientSigned = true)

/-- C7: for a PDF with at least one page, `getSafePage` resolves the
sentinel `'last'` and any out-of-range 1-based request to the nearest
valid boundary: an in-range request `n` maps to zero-based `n - 1`,
a request below 1 maps to index 0, and a request above `pageCount`
(or `'last'`) maps to `pageCount - 1`. -/
theorem C7_page_resolver_clamps (count : Nat) (n : Int) (hc : 1 ≤ count) :
    getSafePageIdx count .last = (count : Int) - 1 ∧
    (1 ≤ n → n ≤ (count : Int) → getSafePageIdx count (.num n) = n - 1) ∧
    (n < 1 → getSafePageIdx count (.num n) = 0) ∧
    ((count : Int) < n → getSafePageIdx count (.num n) = (count : Int) - 1) := by
  refine ⟨rfl, ?_, ?_, ?_⟩ <;> intros <;>
    · simp only [getSafePageIdx]
      split <;> omega

/-- Witness for C7 at `count = 3`: pages 2, 0, -4 and 9 resolve to
indices 1, 0, 0 and 2 respectively. -/
theorem C7_page_resolver_clamps_witness :
    getSafePageIdx 3 .last = 2 ∧
    getSafePageIdx 3 (.num 2) = 1 ∧
    getSafePageIdx 3 (.num 0) = 0 ∧
    getSafePageIdx 3 (.num (-4)) = 0 ∧
    getSafePageIdx 3 (.num 9) = 2 := by
  have h2 := C7_page_resolver_clamps 3 2 (by decide)
  have h0 := C7_page_resolver_clamps 3 0 (by decide)
  have hm := C7_page_resolver_clamps 3 (-4) (by decide)
  have h9 := C7_page_resolver_clamps 3 9 (by decide)
  exact ⟨h2.1, h2.2.1 (by decide) (by decide), h0.2.2.1 (by decide),
    hm.2.2.1 (by decide), h9.2.2.2 (by decide)⟩

/-- C6 counterexample: stamping with no template width/height and no
override width/height does **not** draw the image at its native pixel
dimensions.  With a 600×800 page and a 300×120 image, the drawn size is
the resolver's default 150×50, not 300×120. -/
theorem C6_native_size_counterexample :
    stampDrawnSize [⟨600, 800⟩] emptySpec emptySpec 300 120 = (150, 50) ∧
    stampDrawnSize [⟨600, 800⟩] emptySpec emptySpec 300 120 ≠ (300, 120) := by
  constructor <;> decide

/-- C6 (amended): when neither the template anchor nor the override
specifies a width/height, the drawn size is the coordinate resolver's
defaults 150×50 (`Math.max(1, merged.width || 150)` etc.); the image's
native pixel dimensions are never used because the resolved width and
height are always at least 1. -/
theorem C6_default_size (pages : List PdfPage) (tc oc : SigSpec)
    (pngW pngH : Int)
    (htw : tc.width = none) (how : oc.width = none)
    (hth : tc.height = none) (hoh : oc.height = none) :
    stampDrawnSize pages tc oc pngW pngH = (150, 50) := by
  simp [stampDrawnSize, resolveSignatureCoords, htw, how, hth, hoh,
    Option.orElse, jsNumOr]

/-- Witness for C6 (amended) at a concrete page list and image size. -/
theorem C6_default_size_witness :
    stampDrawnSize [⟨600, 800⟩] emptySpec emptySpec 300 120 = (150, 50) :=
  C6_default_size [⟨600, 800⟩] emptySpec emptySpec 300 120 rfl rfl rfl rfl

theorem joinSp_concat (g : List String) (w : String) :
    joinSp (g ++ [w]) = if joinSp g = "" then w else joinSp g ++ " " ++ w := by
  simp [joinSp, List.foldl_append]

theorem wrapStep_inv {widthOf maxWidth consumed st} (w : String)
    (h : WrapInv widthOf maxWidth consumed st) :
    WrapInv widthOf maxWidth (consumed ++ [w])
      (wrapStep widthOf maxWidth st w) := by
  obtain ⟨hlines, hline, gs, g, hst1, hst2, hflat⟩ := h
  have hmono : ∀ l ∈ st.1, l ≠ "" ∧ (widthOf l ≤ maxWidth ∨ l ∈ consumed ++ [w]) := by
    intro l hl
    obtain ⟨h1, h2⟩ := hlines l hl
    exact ⟨h1, h2.imp id (by intro hm; exact List.mem_append_left _ hm)⟩
  unfold wrapStep
  by_cases htest : widthOf (if st.2 = "" then w else st.2 ++ " " ++ w) ≤ maxWidth
  · simp only [htest, if_true]
    refine ⟨hmono, Or.inr (Or.inl htest), gs, g ++ [w], hst1, ?_, ?_⟩
    · rw [joinSp_concat, ← hst2]
    · rw [← List.append_assoc, hflat]
  · simp only [htest, if_false]
    by_cases hempty : st.2 = ""
    · simp only [hempty, if_true]
      refine ⟨hmono, Or.inr (Or.inr (List.mem_append_right _ (by simp))),
        gs ++ [g], [w], ?_, by simp [joinSp], ?_⟩
      · have : joinSp g = "" := by rw [← hst2, hempty]
        simp [List.filter_append, this, hst1]
      · simp only [List.flatten_append, List.flatten_cons, List.flatten_nil,
          List.append_nil, List.append_assoc]
        rw [← List.append_assoc, hflat]
    · simp only [hempty, if_false]
      constructor
      · intro l hl
        rcases List.mem_append.mp hl with hl | hl
        · exact hmono l hl
        · have : l = st.2 := by simpa using hl
          subst this
          refine ⟨hempty, ?_⟩
          rcases hline with h | h | h
          · exact absurd h hempty
          · exact Or.inl h
          · exact Or.inr (List.mem_append_left _ h)
      refine ⟨Or.inr (Or.inr (List.mem_append_right _ (by simp))),
        gs ++ [g], [w], ?_, by simp [joinSp], ?_⟩
      · have hg : joinSp g ≠ "" := by rw [← hst2]; exact hempty
        simp [List.filter_append, hst1, hst2, hg]
      · simp only [List.flatten_append, List.flatten_cons, List.flatten_nil,
          List.append_nil, List.append_assoc]
        rw [← List.append_assoc, hflat]

theorem wrap_foldl_inv (widthOf : String → Nat) (maxWidth : Nat) :
    ∀ (ws consumed : List String) (st : List String × String),
    WrapInv widthOf maxWidth consumed st →
    WrapInv widthOf maxWidth (consumed ++ ws)
      (ws.foldl (wrapStep widthOf maxWidth) st) := by
  intro ws
  induction ws with
  | nil => intro consumed st h; simpa using h
  | cons w ws ih =>
    intro consumed st h
    have h1 := wrapStep_inv w h
    have h2 := ih (consumed ++ [w]) _ h1
    simpa [List.append_assoc] using h2

theorem wrapInv_init (widthOf : String → Nat) (maxWidth : Nat) :
    WrapInv widthOf maxWidth [] ([], "") := by
  refine ⟨by simp, Or.inl rfl, [], [], by simp, rfl, rfl⟩

/-- C8 (amended): for positive `maxWidth`, every line produced by
`wrapLines` is non-empty and either measures within `maxWidth` **or is a
single input word wider than the limit by itself** (the greedy wrap never
splits inside a word); and the lines are exactly the non-empty space-joins
of a partition of the words of the input, in their original order. -/
theorem C8_wrap_amended (widthOf : String → Nat) (text : String)
    (maxWidth : Nat) (hW : 0 < maxWidth) :
    (∀ l ∈ wrapLines widthOf text maxWidth,
        l ≠ "" ∧ (widthOf l ≤ maxWidth ∨ l ∈ splitWs text)) ∧
    ∃ gs : List (List String), gs.flatten = splitWs text ∧
      wrapLines widthOf text maxWidth
        = (gs.map joinSp).filter (fun l => l != "") := by
  have hmw : maxWidth ≠ 0 := Nat.pos_iff_ne_zero.mp hW
  have hinv := wrap_foldl_inv widthOf maxWidth (splitWs text) [] ([], "")
    (wrapInv_init widthOf maxWidth)
  simp only [List.nil_append] at hinv
  obtain ⟨hlines, hline, gs, g, hst1, hst2, hflat⟩ := hinv
  have hdef : wrapLines widthOf text maxWidth
      = wrapFinish ((splitWs text).foldl (wrapStep widthOf maxWidth) ([], "")) := by
    simp [wrapLines, hmw]
  set st := (splitWs text).foldl (wrapStep widthOf maxWidth) ([], "") with hst
  constructor
  · intro l hl
    rw [hdef] at hl
    unfold wrapFinish at hl
    by_cases hempty : st.2 = ""
    · simp only [hempty, if_true] at hl
      exact hlines l hl
    · simp only [hempty, if_false] at hl
      rcases List.mem_append.mp hl with hl | hl
      · exact hlines l hl
      · have : l = st.2 := by simpa using hl
        subst this
        refine ⟨hempty, ?_⟩
        rcases hline with h | h | h
        · exact absurd h hempty
        · exact Or.inl h
        · exact Or.inr h
  · refine ⟨gs ++ [g], ?_, ?_⟩
    · simpa using hflat
    · rw [hdef]
      unfold wrapFinish
      by_cases hempty : st.2 = ""
      · have hg : joinSp g = "" := by rw [← hst2, hempty]
        simp [hempty, List.filter_append, hg, hst1]
      · have hg : joinSp g ≠ "" := by rw [← hst2]; exact hempty
        simp [hempty, List.filter_append, hst1, hst2, hg]

/-- C8 counterexample: the word-wrap **can** emit a line wider than
`maxWidth`.  With the metric `String.length`, the input `"abcd"` and
`maxWidth = 3`, the single produced line `"abcd"` measures 4 > 3, so the
claim "only lines whose measured width is at most W" is false as stated. -/
theorem C8_width_counterexample :
    ∃ l ∈ wrapLines String.length "abcd" 3, ¬ String.length l ≤ 3 :=
  ⟨"abcd", by decide, by decide⟩

/-- Witness for C8 (amended) on a concrete input: `"ab cd ef"` wrapped at
width 5 with the `String.length` metric. -/
theorem C8_wrap_amended_witness :
    (∀ l ∈ wrapLines String.length "ab cd ef" 5,
        l ≠ "" ∧ (String.length l ≤ 5 ∨ l ∈ splitWs "ab cd ef")) ∧
    ∃ gs : List (List String), gs.flatten = splitWs "ab cd ef" ∧
      wrapLines String.length "ab cd ef" 5
        = (gs.map joinSp).filter (fun l => l != "") :=
  C8_wrap_amended String.length "ab cd ef" 5 (by decide)

theorem okChar_replaceNonWord {l : List Char} :
    ∀ c ∈ replaceNonWord l, okChar c = true := by
  intro c hc
  obtain ⟨a, _, ha⟩ := List.mem_map.mp hc
  by_cases h : keepChar a
  · simp only [h, if_true] at ha; subst ha; simp [okChar, h]
  · simp only [h, if_false] at ha; subst ha; simp [okChar]

theorem mem_collapseWs : ∀ (l : List Char) (c : Char),
    c ∈ collapseWs l → c ∈ l ∨ c = ' '
  | [], c, h => by simp [collapseWs] at h
  | [x], c, h => by
    by_cases hx : isWsChar x
    · simp only [collapseWs, if_pos hx, List.mem_singleton] at h
      exact Or.inr h
    · simp only [collapseWs, if_neg hx, List.mem_singleton] at h
      exact Or.inl (by simp [h])
  | x :: y :: ys, c, h => by
    by_cases hx : isWsChar x
    · by_cases hy : isWsChar y
      · simp only [collapseWs, if_pos hx, if_pos hy] at h
        rcases mem_collapseWs (y :: ys) c h with h2 | h2
        · exact Or.inl (List.mem_cons_of_mem _ h2)
        · exact Or.inr h2
      · simp only [collapseWs, if_pos hx, if_neg hy, List.mem_cons] at h
        rcases h with h | h
        · exact Or.inr h
        · rcases mem_collapseWs (y :: ys) c h with h2 | h2
          · exact Or.inl (List.mem_cons_of_mem _ h2)
          · exact Or.inr h2
    · simp only [collapseWs, if_neg hx, List.mem_cons] at h
      rcases h with h | h
      · exact Or.inl (by simp [h])
      · rcases mem_collapseWs (y :: ys) c h with h2 | h2
        · exact Or.inl (List.mem_cons_of_mem _ h2)
        · exact Or.inr h2

theorem mem_trimWs {l : List Char} {c : Char} (h : c ∈ trimWs l) : c ∈ l := by
  unfold trimWs at h
  rw [List.mem_reverse] at h
  have h1 := (List.dropWhile_sublist (p := isWsChar)
    (l := (l.dropWhile isWsChar).reverse)).subset h
  rw [List.mem_reverse] at h1
  exact (List.dropWhile_sublist (p := isWsChar) (l := l)).subset h1

theorem dropWhile_eq_self_of {α : Type} {p : α → Bool} {l : List α}
    (h : ∀ c ∈ l, p c = false) : l.dropWhile p = l := by
  cases l with
  | nil => rfl
  | cons x xs => simp [List.dropWhile_cons, h x (by simp)]

theorem head?_dropWhile {α : Type} {p : α → Bool} (l : List α) :
    ∀ x, (l.dropWhile p).head? = some x → p x = false := by
  induction l with
  | nil => simp
  | cons a as ih =>
    intro x h
    rw [List.dropWhile_cons] at h
    by_cases ha : p a
    · rw [if_pos ha] at h; exact ih x h
    · rw [if_neg ha] at h
      simp only [List.head?_cons, Option.some.injEq] at h
      subst h
      simpa using ha

theorem dropWhile_ne_nil_of_mem {α : Type} {p : α → Bool} {l : List α}
    {x : α} (hx : x ∈ l) (hpx : p x = false) : l.dropWhile p ≠ [] := by
  induction l with
  | nil => cases hx
  | cons a as ih =>
    rw [List.dropWhile_cons]
    split
    · next ha =>
      rcases List.mem_cons.mp hx with rfl | hx2
      · rw [ha] at hpx; cases hpx
      · exact ih hx2
    · simp

theorem trimWs_front (l : List Char) :
    trimWs l <+: l.dropWhile isWsChar := by
  unfold trimWs
  obtain ⟨t, ht⟩ := List.dropWhile_suffix
    (l := (l.dropWhile isWsChar).reverse) (p := isWsChar)
  refine ⟨t.reverse, ?_⟩
  have := congrArg List.reverse ht
  simpa using this

theorem trimWs_head_not_ws {l : List Char} {x : Char} {r : List Char}
    (h : trimWs l = x :: r) : isWsChar x = false := by
  obtain ⟨t, ht⟩ := trimWs_front l
  rw [h] at ht
  have : (l.dropWhile isWsChar).head? = some x := by
    rw [← ht]; rfl
  exact head?_dropWhile l x this

theorem trimWs_cons_ne_nil {x : Char} {r : List Char}
    (hx : isWsChar x = false) : trimWs (x :: r) ≠ [] := by
  unfold trimWs
  intro hcon
  have h1 : (x :: r).dropWhile isWsChar = x :: r := by
    rw [List.dropWhile_cons, if_neg (by simp [hx])]
  rw [h1] at hcon
  have h2 : ((x :: r).reverse.dropWhile isWsChar) ≠ [] := by
    refine dropWhile_ne_nil_of_mem (x := x) ?_ hx
    rw [List.mem_reverse]; simp
  exact h2 (by simpa using hcon)

theorem trimWs_take_cons_ne_nil {x : Char} {r : List Char}
    (hx : isWsChar x = false) {n : Nat} (hn : 0 < n) :
    trimWs ((x :: r).take n) ≠ [] := by
  obtain ⟨m, rfl⟩ := Nat.exists_eq_succ_of_ne_zero (Nat.pos_iff_ne_zero.mp hn)
  rw [List.take_succ_cons]
  exact trimWs_cons_ne_nil hx

theorem length_trimWs_le (l : List Char) : (trimWs l).length ≤ l.length := by
  unfold trimWs
  calc ((l.dropWhile isWsChar).reverse.dropWhile isWsChar).reverse.length
      = ((l.dropWhile isWsChar).reverse.dropWhile isWsChar).length := by
        rw [List.length_reverse]
    _ ≤ (l.dropWhile isWsChar).reverse.length :=
        (List.dropWhile_sublist _).length_le
    _ = (l.dropWhile isWsChar).length := by rw [List.length_reverse]
    _ ≤ l.length := (List.dropWhile_sublist _).length_le

theorem okChar_not_dot_hash {c : Char} (h : okChar c = true) :
    c ≠ '.' ∧ c ≠ '#' := by
  constructor <;> rintro rfl <;> revert h <;> decide

theorem normalizePart_chars (nfkd : String → String) (name : String) :
    ∀ c ∈ normalizePart nfkd name, okChar c = true := by
  intro c hc
  unfold normalizePart stripLeadingDots stripTrailingDotHash at hc
  have h1 := (List.dropWhile_sublist _).subset hc
  rw [List.mem_reverse] at h1
  have h2 := (List.dropWhile_sublist _).subset h1
  rw [List.mem_reverse] at h2
  have h3 := mem_trimWs h2
  rcases mem_collapseWs _ _ h3 with h4 | h4
  · exact okChar_replaceNonWord c h4
  · subst h4; simp [okChar]

theorem normalizePart_eq_trim (nfkd : String → String) (name : String) :
    normalizePart nfkd name
      = trimWs (collapseWs (replaceNonWord (nfkd name).data)) := by
  unfold normalizePart
  set t := trimWs (collapseWs (replaceNonWord (nfkd name).data)) with ht
  have hchars : ∀ c ∈ t, okChar c = true := by
    intro c hc
    rcases mem_collapseWs _ _ (mem_trimWs hc) with h | h
    · exact okChar_replaceNonWord c h
    · subst h; simp [okChar]
  have h1 : stripTrailingDotHash t = t := by
    unfold stripTrailingDotHash
    rw [dropWhile_eq_self_of, List.reverse_reverse]
    intro c hc
    rw [List.mem_reverse] at hc
    obtain ⟨hd, hh⟩ := okChar_not_dot_hash (hchars c hc)
    simp [hd, hh]
  rw [h1]
  unfold stripLeadingDots
  apply dropWhile_eq_self_of
  intro c hc
  obtain ⟨hd, _⟩ := okChar_not_dot_hash (hchars c hc)
  simp [hd]

theorem normalizePart_head_not_ws (nfkd : String → String) (name : String)
    {x : Char} {r : List Char} (h : normalizePart nfkd name = x :: r) :
    isWsChar x = false := by
  rw [normalizePart_eq_trim] at h
  exact trimWs_head_not_ws h

/-- C10: for every input (the empty string standing for a missing
argument) and every behaviour of the external NFKD normalization,
`safeFolderName` returns a non-empty string of at most 100 characters
containing no `'.'` and no `'#'` at all (hence no leading dots and no
trailing dots or hashes), and any input whose normalization is empty or
case-insensitively `"forms"` yields the fallback `"Client"`. -/
theorem C10_safe_folder_name (nfkd : String → String) (name : String) :
    safeFolderName nfkd name ≠ "" ∧
    (safeFolderName nfkd name).length ≤ 100 ∧
    (∀ c ∈ (safeFolderName nfkd name).data, c ≠ '.' ∧ c ≠ '#') ∧
    ((normalizePart nfkd (if name = "" then "Client" else name) = [] ∨
      (normalizePart nfkd (if name = "" then "Client" else name)).map
        Char.toLower = "forms".data) →
      safeFolderName nfkd name = "Client") := by
  by_cases hfb : normalizePart nfkd (if name = "" then "Client" else name) = [] ∨
      (normalizePart nfkd (if name = "" then "Client" else name)).map
        Char.toLower = "forms".data
  · have hc : folderCandidate nfkd name = "Client".data := by
      unfold folderCandidate
      rw [if_pos hfb]
    have hres : safeFolderName nfkd name = "Client" := by
      unfold safeFolderName
      rw [hc]
      decide
    rw [hres]
    exact ⟨by decide, by decide, by decide, fun _ => rfl⟩
  · have hc : folderCandidate nfkd name
        = normalizePart nfkd (if name = "" then "Client" else name) := by
      unfold folderCandidate
      rw [if_neg hfb]
    have hchars0 : ∀ c ∈ folderCandidate nfkd name, okChar c = true := by
      rw [hc]; exact normalizePart_chars nfkd _
    have hne : folderCandidate nfkd name ≠ [] := by
      rw [hc]; exact fun h => hfb (Or.inl h)
    obtain ⟨x, r, hxr⟩ : ∃ x r, folderCandidate nfkd name = x :: r := by
      cases h : folderCandidate nfkd name with
      | nil => exact absurd h hne
      | cons a as => exact ⟨a, as, rfl⟩
    have hxw : isWsChar x = false :=
      normalizePart_head_not_ws nfkd _ (hc ▸ hxr)
    refine ⟨?_, ?_, ?_, fun h => absurd h hfb⟩
    · unfold safeFolderName
      split
      · intro hcon
        have hnil : trimWs ((folderCandidate nfkd name).take 100) = [] := by
          have := congrArg String.data hcon
          simpa using this
        rw [hxr] at hnil
        exact trimWs_take_cons_ne_nil hxw (by norm_num) hnil
      · intro hcon
        have : folderCandidate nfkd name = [] := by
          have := congrArg String.data hcon
          simpa using this
        exact hne this
    · unfold safeFolderName
      split
      · next hlen =>
        show (trimWs ((folderCandidate nfkd name).take 100)).length ≤ 100
        calc (trimWs ((folderCandidate nfkd name).take 100)).length
            ≤ ((folderCandidate nfkd name).take 100).length :=
              length_trimWs_le _
          _ ≤ 100 := List.length_take_le 100 (folderCandidate nfkd name)
      · next hlen =>
        show (folderCandidate nfkd name).length ≤ 100
        omega
    · unfold safeFolderName
      split
      · intro c hc2
        have hc3 : c ∈ (folderCandidate nfkd name).take 100 := mem_trimWs hc2
        have hc4 : c ∈ folderCandidate nfkd name := List.take_subset _ _ hc3
        exact okChar_not_dot_hash (hchars0 c hc4)
      · intro c hc2
        exact okChar_not_dot_hash (hchars0 c hc2)

/-- Witness for C10's fallback clause: `"@ forms!"` normalizes
case-insensitively to `"forms"` and yields `"Client"`; also instantiates
the unconditional clauses at that input with `nfkd = id`. -/
theorem C10_safe_folder_name_witness :
    safeFolderName id "@ forms!" = "Client" ∧
    safeFolderName id "@ forms!" ≠ "" := by
  have h := C10_safe_folder_name id "@ forms!"
  have hfb := h.2.2.2 (by decide)
  exact ⟨hfb, h.1⟩

/-- C9 counterexample: the template input mapper is **not** a pure
function of its two inputs alone.  For the `ConfidentialityAgreement`
template, two invocations with identical inputs but at different clock
times produce different outputs (the `executedDate` entry is the
current date). -/
theorem C9_purity_counterexample :
    buildTemplateInput "ConfidentialityAgreement"
        { businessName := "Biz", submittedAt := some 1 } none 5 ≠
      buildTemplateInput "ConfidentialityAgreement"
        { businessName := "Biz", submittedAt := some 1 } none 6 := by
  decide

/-- C9 (amended): the mapper is a pure function of its two inputs **and
the clock**; the clock enters only through the `executedDate` stamp of the
`ConfidentialityAgreement` template and through the `submittedAt` fallback
when the agreement lacks a submission timestamp.  For any other template
and any agreement with a recorded `submittedAt`, the output is identical
at any two invocation times. -/
theorem C9_mapper_time_independent (templateName : String)
    (a : AgreementData) (s : Option SummaryData) (t1 t2 : Nat)
    (hconf : templateName ≠ "ConfidentialityAgreement")
    (hsub : a.submittedAt.isSome) :
    buildTemplateInput templateName a s t1
      = buildTemplateInput templateName a s t2 := by
  obtain ⟨v, hv⟩ := Option.isSome_iff_exists.mp hsub
  unfold buildTemplateInput
  rw [hv]
  simp [hconf]

/-- Witness for C9 (amended): the `ServiceAgreement` input at times 5 and
6 coincides when `submittedAt` is recorded. -/
theorem C9_mapper_time_independent_witness :
    buildTemplateInput "ServiceAgreement"
        { businessName := "Biz", submittedAt := some 1 } none 5 =
      buildTemplateInput "ServiceAgreement"
        { businessName := "Biz", submittedAt := some 1 } none 6 :=
  C9_mapper_time_independent "ServiceAgreement"
    { businessName := "Biz", submittedAt := some 1 } none 5 6
    (by decide) (by decide)

/-! ### Lemmas about `updateFirst` and `find?` -/

theorem length_updateFirst {α : Type} (p : α → Bool) (f : α → α) :
    ∀ l : List α, (updateFirst p f l).length = l.length
  | [] => rfl
  | x :: xs => by
    unfold updateFirst
    split
    · simp
    · simp [length_updateFirst p f xs]

theorem mem_updateFirst {α : Type} {p : α → Bool} {f : α → α} :
    ∀ {l : List α} {y : α}, y ∈ updateFirst p f l →
      y ∈ l ∨ ∃ x ∈ l, p x = true ∧ y = f x := by
  intro l
  induction l with
  | nil => intro y h; cases h
  | cons x xs ih =>
    intro y h
    unfold updateFirst at h
    split at h
    · next hp =>
      rcases List.mem_cons.mp h with rfl | h2
      · exact Or.inr ⟨x, by simp, hp, rfl⟩
      · exact Or.inl (List.mem_cons_of_mem _ h2)
    · rcases List.mem_cons.mp h with rfl | h2
      · exact Or.inl (by simp)
      · rcases ih h2 with h3 | ⟨z, hz, hpz, hyz⟩
        · exact Or.inl (List.mem_cons_of_mem _ h3)
        · exact Or.inr ⟨z, List.mem_cons_of_mem _ hz, hpz, hyz⟩

theorem all_updateFirst_congr {α : Type} {p q : α → Bool} {f : α → α}
    (h : ∀ x, q (f x) = q x) : ∀ l : List α,
      (updateFirst p f l).all q = l.all q
  | [] => rfl
  | x :: xs => by
    unfold updateFirst
    split
    · simp [h x]
    · simp [all_updateFirst_congr h xs]

theorem map_updateFirst_congr {α β : Type} {p : α → Bool} {f : α → α}
    {g : α → β} (h : ∀ x, g (f x) = g x) : ∀ l : List α,
      (updateFirst p f l).map g = l.map g
  | [] => rfl
  | x :: xs => by
    unfold updateFirst
    split
    · simp [h x]
    · simp [map_updateFirst_congr h xs]

theorem find?_updateFirst {α : Type} {p : α → Bool} {f : α → α} :
    ∀ {l : List α} {x : α}, l.find? p = some x → (∀ a, p (f a) = p a) →
      (updateFirst p f l).find? p = some (f x) := by
  intro l
  induction l with
  | nil => intro x h _; simp at h
  | cons a as ih =>
    intro x h hf
    by_cases hp : p a = true
    · rw [List.find?_cons_of_pos _ hp] at h
      obtain rfl : a = x := by simpa using h
      unfold updateFirst
      rw [if_pos hp]
      exact List.find?_cons_of_pos _ (by rw [hf]; exact hp)
    · rw [List.find?_cons_of_neg _ (by simpa using hp)] at h
      unfold updateFirst
      rw [if_neg hp, List.find?_cons_of_neg _ (by simpa using hp)]
      exact ih h hf

theorem find?_decomp {α : Type} {p : α → Bool} :
    ∀ {l : List α} {x : α}, l.find? p = some x →
      ∃ as bs, l = as ++ x :: bs ∧ (∀ a ∈ as, p a = false) ∧ p x = true := by
  intro l
  induction l with
  | nil => intro x h; simp at h
  | cons a as ih =>
    intro x h
    by_cases hp : p a = true
    · rw [List.find?_cons_of_pos _ hp] at h
      obtain rfl : a = x := by simpa using h
      exact ⟨[], as, rfl, by simp, hp⟩
    · rw [List.find?_cons_of_neg _ (by simpa using hp)] at h
      obtain ⟨cs, bs, rfl, hcs, hx⟩ := ih h
      refine ⟨a :: cs, bs, rfl, ?_, hx⟩
      intro b hb
      rcases List.mem_cons.mp hb with rfl | hb2
      · simpa using hp
      · exact hcs b hb2

theorem updateFirst_append_not {α : Type} {p : α → Bool} {f : α → α} :
    ∀ {as : List α}, (∀ a ∈ as, p a = false) → ∀ (x : α), p x = true →
      ∀ (bs : List α), updateFirst p f (as ++ x :: bs) = as ++ f x :: bs := by
  intro as
  induction as with
  | nil =>
    intro _ x hx bs
    simp [updateFirst, hx]
  | cons a as2 ih =>
    intro h x hx bs
    have ha : p a = false := h a (by simp)
    simp only [List.cons_append]
    unfold updateFirst
    rw [if_neg (by simp [ha])]
    rw [ih (fun b hb => h b (List.mem_cons_of_mem _ hb)) x hx bs]

theorem find?_append_none {α : Type} {p : α → Bool} :
    ∀ {as : List α}, (∀ a ∈ as, p a = false) → ∀ (l : List α),
      (as ++ l).find? p = l.find? p := by
  intro as
  induction as with
  | nil => intro _ l; rfl
  | cons a as2 ih =>
    intro h l
    have ha : p a = false := h a (by simp)
    simp only [List.cons_append, List.find?_cons, ha]
    exact ih (fun b hb => h b (List.mem_cons_of_mem _ hb)) l

theorem all_false_of_mem {α : Type} {q : α → Bool} {l : List α} {x : α}
    (hx : x ∈ l) (h : q x = false) : l.all q = false := by
  by_contra hcon
  have := List.all_eq_true.mp (eq_true_of_ne_false hcon) x hx
  rw [h] at this
  cases this

theorem forall₂_updateFirst {α : Type} {R : α → α → Prop} {p : α → Bool}
    {f : α → α} (hrefl : ∀ x, R x x) (hf : ∀ x, R x (f x)) :
    ∀ l : List α, List.Forall₂ R l (updateFirst p f l)
  | [] => List.Forall₂.nil
  | x :: xs => by
    unfold updateFirst
    split
    · exact List.Forall₂.cons (hf x)
        (List.forall₂_same.mpr fun y _ => hrefl y)
    · exact List.Forall₂.cons (hrefl x) (forall₂_updateFirst hrefl hf xs)

/-! ### C1, C2: consumed tokens and client-before-director rejections -/

/-- C1: once a token's target signed flag is true — the document's
`clientSigned` flag for a client token, the slot at the token's
`directorIndex` for a director token — any well-formed signing request
presenting a token for that same target is rejected with the code's
already-signed Conflict response (HTTP 400, `"Document already signed"` /
`"Document already signed by you"`) and the persisted agreement state is
unchanged.  (For the director part, `doc.clientSigned = true` holds in
every state in which the slot exists and is signed, cf. `C4`'s
invariant.) -/
theorem C1_consumed_token_rejected :
    (∀ (env : Env) (ag : Agreement) (c : TokenClaims) (sig : String)
        (doc : AgreementDoc),
      sig ≠ "" → c.role = "client" → c.agid = ag.id →
      ag.documents.find? (fun d => d.name == c.docName) = some doc →
      doc.clientSigned = true →
      clientSign env ag c sig = (.badRequest "Document already signed", ag)) ∧
    (∀ (env : Env) (ag : Agreement) (c : TokenClaims) (sig : String)
        (doc : AgreementDoc) (slot : DirectorSlot),
      sig ≠ "" → c.role = "director" → c.agid = ag.id →
      ag.documents.find? (fun d => d.name == c.docName) = some doc →
      doc.clientSigned = true →
      doc.directors[c.directorIndex]? = some slot →
      slot.signed = true →
      directorSign env ag c sig
        = (.badRequest "Document already signed by you", ag)) := by
  constructor
  · intro env ag c sig doc hsig hrole hagid hfind hsigned
    unfold clientSign
    rw [if_neg hsig, if_neg (by simp [hrole]), if_neg (by simp [hagid]),
      hfind]
    simp [hsigned]
  · intro env ag c sig doc slot hsig hrole hagid hfind hclient hslot hsigned
    unfold directorSign
    rw [if_neg hsig, if_neg (by simp [hrole]), if_neg (by simp [hagid]),
      hfind]
    simp [hclient, hslot, hsigned]

/-- Witness for C1 at a concrete consumed token of each role. -/
theorem C1_consumed_token_rejected_witness :
    clientSign envW agW ⟨"A1", "client", "ServiceAgreement", 0⟩ "s"
      = (.badRequest "Document already signed", agW) ∧
    directorSign envW agW ⟨"A1", "director", "ServiceAgreement", 0⟩ "s"
      = (.badRequest "Document already signed by you", agW) :=
  ⟨C1_consumed_token_rejected.1 envW agW _ "s" docSignedW (by decide) rfl rfl
      rfl rfl,
   C1_consumed_token_rejected.2 envW agW _ "s" docSignedW slotW (by decide)
      rfl rfl rfl rfl rfl rfl⟩

/-- C2: a director-sign request for a document whose `clientSigned` flag
is false is rejected with the code's Conflict response (HTTP 400,
`"Client must sign first"`), for every director index, and the rejection
leaves the persisted agreement state unchanged. -/
theorem C2_director_rejected_before_client (env : Env) (ag : Agreement)
    (c : TokenClaims) (sig : String) (doc : AgreementDoc)
    (hsig : sig ≠ "") (hrole : c.role = "director") (hagid : c.agid = ag.id)
    (hfind : ag.documents.find? (fun d => d.name == c.docName) = some doc)
    (hflag : doc.clientSigned = false) :
    directorSign env ag c sig = (.badRequest "Client must sign first", ag) := by
  unfold directorSign
  rw [if_neg hsig, if_neg (by simp [hrole]), if_neg (by simp [hagid]), hfind]
  simp [hflag]

/-- Witness for C2 at a concrete token with director index 7. -/
theorem C2_director_rejected_before_client_witness :
    directorSign envW agUnsignedW ⟨"A1", "director", "ServiceAgreement", 7⟩ "s"
      = (.badRequest "Client must sign first", agUnsignedW) :=
  C2_director_rejected_before_client envW agUnsignedW _ "s" docUnsignedW
    (by decide) rfl rfl rfl rfl

/-- C5 counterexample: on the client-sign route, regeneration of a
missing draft **overwrites** a previously set `draftPdfPath`
(`doc.draftPdfPath = inFile; await ag.save()`, src/server.js line 1003).
`docC5` had `draftPdfPath = "old.pdf"`; after the successful sign request
that had to self-heal, the persisted value is the regenerated
`"regen.pdf"`, so the claim "a document whose draftPdfPath was already
set keeps its prior value, on every code path that invokes regeneration"
is false. -/
theorem C5_overwrite_counterexample :
    docC5.draftPdfPath = "old.pdf" ∧
    ((clientSign envC5 agC5 ⟨"A1", "client", "ServiceAgreement", 0⟩
        "s").2.documents.map fun d => d.draftPdfPath) = ["regen.pdf"] := by
  constructor
  · rfl
  · decide

/-- C5 (amended): `ensureDraftExists` itself writes the regenerated path
into `draftPdfPath` only when that field was previously empty — every
document either keeps its prior `draftPdfPath` or had none (this covers
the preview route, which persists exactly the `ensureDraftExists` state).
The client-sign route, by contrast, stores the regenerated path
unconditionally whenever it invokes regeneration (the counterexample). -/
theorem C5_fill_if_empty (env : Env) (ag : Agreement) (docName f : String)
    (ag' : Agreement) (h : ensureDraftExists env ag docName = some (f, ag')) :
    List.Forall₂ (fun d d' : AgreementDoc =>
        d'.name = d.name ∧
        (d'.draftPdfPath = d.draftPdfPath ∨ d.draftPdfPath = ""))
      ag.documents ag'.documents := by
  unfold ensureDraftExists at h
  split at h
  · simp at h
  · split at h
    · have hag : ag' = { ag with documents :=
          (updateFirst (fun d => d.name == docName)
            (fun d => if d.draftPdfPath = ""
                      then { d with draftPdfPath := env.freshDraft }
                      else d)
            ag.documents) } :=
        (congrArg Prod.snd (Option.some.inj h)).symm
      subst hag
      refine forall₂_updateFirst ?_ ?_ ag.documents
      · intro d; exact ⟨rfl, Or.inl rfl⟩
      · intro d
        by_cases hd : d.draftPdfPath = ""
        · rw [if_pos hd]
          exact ⟨rfl, Or.inr hd⟩
        · rw [if_neg hd]
          exact ⟨rfl, Or.inl rfl⟩
    · simp at h

/-- Witness for C5 (amended): `ensureDraftExists` on `agC5` (whose single
document already records `old.pdf`) leaves every `draftPdfPath`
untouched. -/
theorem C5_fill_if_empty_witness :
    List.Forall₂ (fun d d' : AgreementDoc =>
        d'.name = d.name ∧
        (d'.draftPdfPath = d.draftPdfPath ∨ d.draftPdfPath = ""))
      agC5.documents agC5.documents :=
  C5_fill_if_empty envC5 agC5 "ServiceAgreement" "regen.pdf" agC5 (by decide)

theorem ensureDraftExists_key {env : Env} {ag : Agreement} {n f : String}
    {ag' : Agreement} (h : ensureDraftExists env ag n = some (f, ag')) :
    ag'.documents.map docKey = ag.documents.map docKey := by
  unfold ensureDraftExists at h
  split at h
  · simp at h
  · split at h
    · have hag : ag' = { ag with documents :=
          (updateFirst (fun d => d.name == n)
            (fun d => if d.draftPdfPath = ""
                      then { d with draftPdfPath := env.freshDraft }
                      else d)
            ag.documents) } :=
        (congrArg Prod.snd (Option.some.inj h)).symm
      subst hag
      refine map_updateFirst_congr ?_ _
      intro d
      by_cases hd : d.draftPdfPath = ""
      · rw [if_pos hd]; rfl
      · rw [if_neg hd]
    · simp at h

theorem healClientDraft_key {env : Env} {ag : Agreement}
    {doc : AgreementDoc} {ag1 : Agreement}
    (h : healClientDraft env ag doc = some ag1) :
    ag1.documents.map docKey = ag.documents.map docKey := by
  unfold healClientDraft at h
  split at h
  · rw [(Option.some.inj h).symm]
  · split at h
    · simp at h
    · rename_i fp agE heq
      have hag : ag1 = { agE with documents :=
          (updateFirst (fun d => d.name == doc.name)
            (fun d => { d with draftPdfPath := fp }) agE.documents) } :=
        (Option.some.inj h).symm
      subst hag
      calc (updateFirst (fun d => d.name == doc.name)
              (fun d => { d with draftPdfPath := fp })
              agE.documents).map docKey
          = agE.documents.map docKey := by
            refine map_updateFirst_congr ?_ _
            intro d; rfl
        _ = ag.documents.map docKey := ensureDraftExists_key heq

theorem clientSignFinish_spec (env : Env) (ag1 : Agreement)
    (agid docName sig : String)
    (hnodup : (ag1.documents.map fun d => d.name).Nodup)
    (r : SignResult) (ag2 : Agreement)
    (hr : clientSignFinish env ag1 agid docName sig = (r, ag2)) :
    (∀ nd, ag2.documents.find? (fun d => !d.clientSigned) = some nd →
        r = .nextDocToken ⟨agid, "client", nd.name, 0⟩ ∧
        nd.clientSignToken = some ⟨agid, "client", nd.name, 0⟩) ∧
    (ag2.documents.find? (fun d => !d.clientSigned) = none →
        r = .complete ∧
        ∀ d ∈ ag2.documents,
          d.directors = mkDirectorSlots agid d.name env.directorEmails) := by
  have hnames2 : (clientStamped env ag1 docName sig).map (fun d => d.name)
      = ag1.documents.map (fun d => d.name) := by
    unfold clientStamped
    refine map_updateFirst_congr ?_ _
    intro d; rfl
  unfold clientSignFinish at hr
  split at hr
  · rename_i nextDoc hfind2
    obtain ⟨hr1, hr2⟩ := Prod.mk.inj hr
    subst hr2
    subst hr1
    have hproj : ({ ag1 with documents := (withNextClientTok agid nextDoc.name
        (clientStamped env ag1 docName sig)) } : Agreement).documents
        = withNextClientTok agid nextDoc.name
            (clientStamped env ag1 docName sig) := rfl
    rw [hproj]
    obtain ⟨as, bs, hdecomp, has, hnd⟩ := find?_decomp hfind2
    have hnodup2 : ((clientStamped env ag1 docName sig).map
        fun d => d.name).Nodup := by
      rw [hnames2]; exact hnodup
    have hasname : ∀ a ∈ as, (a.name == nextDoc.name) = false := by
      intro a ha
      rw [hdecomp, List.map_append, List.map_cons] at hnodup2
      obtain ⟨-, -, hdisj⟩ := List.nodup_append.mp hnodup2
      have hne : a.name ≠ nextDoc.name := fun hcon =>
        (hdisj (List.mem_map_of_mem _ ha)) (by rw [hcon]; simp)
      simpa using hne
    have hupd : withNextClientTok agid nextDoc.name
        (clientStamped env ag1 docName sig)
        = as ++ { nextDoc with clientSignToken := some ⟨agid, "client", nextDoc.name, 0⟩ } :: bs := by
      unfold withNextClientTok
      rw [hdecomp]
      exact updateFirst_append_not hasname nextDoc (by simp) bs
    have hfindag2 : (withNextClientTok agid nextDoc.name
        (clientStamped env ag1 docName sig)).find? (fun d => !d.clientSigned)
        = some { nextDoc with clientSignToken := some ⟨agid, "client", nextDoc.name, 0⟩ } := by
      rw [hupd, find?_append_none has]
      exact List.find?_cons_of_pos _ (by simpa using hnd)
    constructor
    · intro nd hndfind
      rw [hfindag2] at hndfind
      obtain rfl := Option.some.inj hndfind
      exact ⟨rfl, rfl⟩
    · intro hnone
      rw [hfindag2] at hnone
      simp at hnone
  · rename_i hfind2
    obtain ⟨hr1, hr2⟩ := Prod.mk.inj hr
    subst hr2
    subst hr1
    have hproj : ({ ag1 with
        documents := (withDirectorSlots agid env.directorEmails
          (clientStamped env ag1 docName sig)),
        clientSigned := true,
        clientSignedDate := some env.now } : Agreement).documents
        = withDirectorSlots agid env.directorEmails
            (clientStamped env ag1 docName sig) := rfl
    rw [hproj]
    have hall : ∀ d ∈ clientStamped env ag1 docName sig,
        d.clientSigned = true := by
      intro d hd
      have := List.find?_eq_none.mp hfind2 d hd
      simpa using this
    have hfindag2 : (withDirectorSlots agid env.directorEmails
        (clientStamped env ag1 docName sig)).find?
          (fun d => !d.clientSigned) = none := by
      unfold withDirectorSlots
      rw [List.find?_eq_none]
      intro d hd
      obtain ⟨d0, hd0, rfl⟩ := List.mem_map.mp hd
      simp [hall d0 hd0]
    constructor
    · intro nd hndfind
      rw [hfindag2] at hndfind
      simp at hndfind
    · intro _
      refine ⟨rfl, ?_⟩
      intro d hd
      unfold withDirectorSlots at hd
      obtain ⟨d0, hd0, rfl⟩ := List.mem_map.mp hd
      rfl

/-- C3: after a successful client signature (well-formed request, token
valid for an unsigned document, registered template, usable or
regenerable draft; document names pairwise distinct as created by
`submit-agreement`): if some document of the saved agreement still has
`clientSigned = false`, the response carries a client token for the first
such document in documents-list order and that very token is persisted on
that document; otherwise the response is `{complete: true}` and every
document of the saved agreement carries one director slot per configured
director email, each slot unsigned and holding its own director token
(cf. `mkDirectorSlots`). -/
theorem C3_next_action_after_client_sign (env : Env) (ag : Agreement)
    (c : TokenClaims) (sig : String) (doc : AgreementDoc) (ag1 : Agreement)
    (hnodup : (ag.documents.map fun d => d.name).Nodup)
    (hsig : sig ≠ "") (hrole : c.role = "client") (hagid : c.agid = ag.id)
    (hfind : ag.documents.find? (fun d => d.name == c.docName) = some doc)
    (hflag : doc.clientSigned = false)
    (htmpl : (TEMPLATES.find? (fun t => t.name == doc.name)).isSome)
    (hheal : healClientDraft env ag doc = some ag1) :
    (∀ nd, (clientSign env ag c sig).2.documents.find?
          (fun d => !d.clientSigned) = some nd →
        (clientSign env ag c sig).1
          = .nextDocToken ⟨ag.id, "client", nd.name, 0⟩ ∧
        nd.clientSignToken = some ⟨ag.id, "client", nd.name, 0⟩) ∧
    ((clientSign env ag c sig).2.documents.find?
          (fun d => !d.clientSigned) = none →
        (clientSign env ag c sig).1 = .complete ∧
        ∀ d ∈ (clientSign env ag c sig).2.documents,
          d.directors = mkDirectorSlots ag.id d.name env.directorEmails) := by
  obtain ⟨t, ht⟩ := Option.isSome_iff_exists.mp htmpl
  have hcs : clientSign env ag c sig
      = clientSignFinish env ag1 ag.id doc.name sig := by
    simp [clientSign, hfind, hflag, ht, hheal, hsig, hrole, hagid]
  have hnodup1 : (ag1.documents.map fun d => d.name).Nodup := by
    have hkey := healClientDraft_key hheal
    have hn : ag1.documents.map (fun d => d.name)
        = ag.documents.map (fun d => d.name) := by
      have h2 := congrArg (List.map Prod.fst) hkey
      simpa [docKey, List.map_map, Function.comp] using h2
    rw [hn]; exact hnodup
  rw [hcs]
  exact clientSignFinish_spec env ag1 ag.id doc.name sig hnodup1 _ _ rfl

/-- Witness for C3: signing the only document of a one-document agreement
(the heal succeeding concretely through the template file) reports
completion and creates the director slots. -/
theorem C3_next_action_after_client_sign_witness :
    (clientSign envC5 agC5 ⟨"A1", "client", "ServiceAgreement", 0⟩
        "s").1 = .complete ∧
    ∀ d ∈ (clientSign envC5 agC5 ⟨"A1", "client", "ServiceAgreement", 0⟩
        "s").2.documents,
      d.directors = mkDirectorSlots "A1" d.name envC5.directorEmails :=
  (C3_next_action_after_client_sign envC5 agC5
    ⟨"A1", "client", "ServiceAgreement", 0⟩ "s" docC5
    ((healClientDraft envC5 agC5 docC5).getD agC5)
    (by decide) (by decide) rfl rfl (by decide) rfl (by decide)
    (by decide)).2 (by decide)

theorem inv_init (id biz email : String) (draftOf : String → String) :
    Inv (initAgreement id biz email draftOf) := by
  refine ⟨?_, rfl, rfl, ?_⟩
  · simp [initAgreement, TEMPLATES]
  · intro d hd hne
    exfalso
    apply hne
    obtain ⟨t, ht, rfl⟩ := List.mem_map.mp hd
    rfl

theorem inv_updateFirstPreserving {ag : Agreement} (p : AgreementDoc → Bool)
    (f : AgreementDoc → AgreementDoc)
    (hf : ∀ d, (f d).clientSigned = d.clientSigned ∧ (f d).directors = d.directors)
    (h : Inv ag) :
    Inv { ag with documents := updateFirst p f ag.documents } := by
  obtain ⟨hne, hcs, hds, h4⟩ := h
  refine ⟨?_, ?_, ?_, ?_⟩
  · intro hcon
    apply hne
    have hl := congrArg List.length hcon
    rw [length_updateFirst] at hl
    exact List.length_eq_zero.mp hl
  · show ag.clientSigned = docsAllClient (updateFirst p f ag.documents)
    rw [hcs]
    unfold docsAllClient
    refine (all_updateFirst_congr ?_ _).symm
    intro d
    rw [(hf d).1]
  · show ag.directorSigned = docsAllDirectors (updateFirst p f ag.documents)
    rw [hds]
    unfold docsAllDirectors
    refine (all_updateFirst_congr ?_ _).symm
    intro d
    rw [(hf d).2]
  · intro d hd hne2
    show ag.clientSigned = true
    rcases mem_updateFirst hd with h2 | ⟨x, hx, -, rfl⟩
    · exact h4 d h2 hne2
    · exact h4 x hx (by rwa [(hf x).2] at hne2)

theorem inv_ensureDraftExists {env : Env} {ag : Agreement} {n f : String}
    {ag2 : Agreement} (h : ensureDraftExists env ag n = some (f, ag2))
    (hin : Inv ag) : Inv ag2 := by
  unfold ensureDraftExists at h
  split at h
  · simp at h
  · split at h
    · have hag : ag2 = { ag with documents :=
          (updateFirst (fun d => d.name == n)
            (fun d => if d.draftPdfPath = ""
                      then { d with draftPdfPath := env.freshDraft }
                      else d)
            ag.documents) } :=
        (congrArg Prod.snd (Option.some.inj h)).symm
      subst hag
      refine inv_updateFirstPreserving _ _ ?_ hin
      intro d
      by_cases hd : d.draftPdfPath = ""
      · rw [if_pos hd]; exact ⟨rfl, rfl⟩
      · rw [if_neg hd]; exact ⟨rfl, rfl⟩
    · simp at h

theorem ensureDraftExists_flags {env : Env} {ag : Agreement} {n f : String}
    {ag2 : Agreement} (h : ensureDraftExists env ag n = some (f, ag2)) :
    ag2.clientSigned = ag.clientSigned ∧
    ag2.directorSigned = ag.directorSigned := by
  unfold ensureDraftExists at h
  split at h
  · simp at h
  · split at h
    · have h2 := congrArg Prod.snd (Option.some.inj h)
      exact ⟨(congrArg Agreement.clientSigned h2).symm,
             (congrArg Agreement.directorSigned h2).symm⟩
    · simp at h

theorem inv_healClientDraft {env : Env} {ag : Agreement}
    {doc : AgreementDoc} {ag1 : Agreement}
    (h : healClientDraft env ag doc = some ag1) (hin : Inv ag) : Inv ag1 := by
  unfold healClientDraft at h
  split at h
  · rw [← Option.some.inj h]; exact hin
  · split at h
    · simp at h
    · rename_i fp agE heq
      have hag : ag1 = { agE with documents :=
          (updateFirst (fun d => d.name == doc.name)
            (fun d => { d with draftPdfPath := fp }) agE.documents) } :=
        (Option.some.inj h).symm
      subst hag
      exact inv_updateFirstPreserving _ _ (fun d => ⟨rfl, rfl⟩)
        (inv_ensureDraftExists heq hin)

theorem healClientDraft_flags {env : Env} {ag : Agreement}
    {doc : AgreementDoc} {ag1 : Agreement}
    (h : healClientDraft env ag doc = some ag1) :
    ag1.clientSigned = ag.clientSigned ∧
    ag1.directorSigned = ag.directorSigned := by
  unfold healClientDraft at h
  split at h
  · rw [← Option.some.inj h]; exact ⟨rfl, rfl⟩
  · split at h
    · simp at h
    · rename_i fp agE heq
      have h2 := Option.some.inj h
      obtain ⟨hE1, hE2⟩ := ensureDraftExists_flags heq
      constructor
      · rw [← congrArg Agreement.clientSigned h2]; exact hE1
      · rw [← congrArg Agreement.directorSigned h2]; exact hE2

theorem inv_previewState (env : Env) (c : TokenClaims) {ag : Agreement}
    (hin : Inv ag) : Inv (previewState env ag c) := by
  unfold previewState
  split
  · exact hin
  · split
    · exact hin
    · split
      · rename_i f ag1 heq
        exact inv_ensureDraftExists heq hin
      · exact hin

/-! Small `Bool`/`List` helpers for the preservation proofs. -/

theorem all_imp {α : Type} {p q : α → Bool} {l : List α}
    (h : ∀ x ∈ l, p x = true → q x = true) (hall : l.all p = true) :
    l.all q = true := by
  rw [List.all_eq_true] at hall ⊢
  exact fun x hx => h x hx (hall x hx)

theorem all_updateFirst_false {α : Type} {p q : α → Bool} {f : α → α}
    (hf : ∀ x, q x = false → q (f x) = false) :
    ∀ {l : List α}, l.all q = false → (updateFirst p f l).all q = false := by
  intro l
  induction l with
  | nil => intro h; simp at h
  | cons x xs ih =>
    intro h
    unfold updateFirst
    split
    · rw [List.all_cons]
      cases hqx : q x with
      | false => rw [hf x hqx, Bool.false_and]
      | true =>
        rw [List.all_cons, hqx, Bool.true_and] at h
        rw [h, Bool.and_false]
    · rw [List.all_cons]
      cases hqx : q x with
      | false => rw [Bool.false_and]
      | true =>
        rw [List.all_cons, hqx, Bool.true_and] at h
        rw [ih h, Bool.and_false]

theorem mem_set_self {α : Type} {l : List α} {i : Nat} (h : i < l.length)
    (a : α) : a ∈ l.set i a := by
  induction l generalizing i with
  | nil => simp at h
  | cons x xs ih =>
    cases i with
    | zero => show a ∈ a :: xs; simp
    | succ n =>
      show a ∈ x :: xs.set n a
      exact List.mem_cons_of_mem _ (ih (by simpa using h))

theorem set_of_length_le {α : Type} {l : List α} {i : Nat}
    (h : l.length ≤ i) (a : α) : l.set i a = l := by
  induction l generalizing i with
  | nil => rfl
  | cons x xs ih =>
    cases i with
    | zero => simp at h
    | succ n =>
      show x :: xs.set n a = x :: xs
      rw [ih (by simpa using h)]

theorem getElemOpt_mem {α : Type} {l : List α} {i : Nat} {a : α}
    (h : l[i]? = some a) : a ∈ l := by
  induction l generalizing i with
  | nil => simp at h
  | cons x xs ih =>
    cases i with
    | zero =>
      have hx : x = a := by simpa using h
      rw [← hx]; simp
    | succ n =>
      rw [List.getElem?_cons_succ] at h
      exact List.mem_cons_of_mem _ (ih h)

theorem directorNextPred_bad {dIdx : Nat} {d : AgreementDoc}
    (h : directorNextPred dIdx d = true) :
    (!d.directors.isEmpty && d.directors.all (fun s => s.signed)) = false := by
  unfold directorNextPred at h
  rw [Bool.and_eq_true] at h
  obtain ⟨-, h2⟩ := h
  cases hslot : d.directors[dIdx]? with
  | none => rw [hslot] at h2; cases h2
  | some s =>
    rw [hslot] at h2
    have hs : s.signed = false := by simpa using h2
    have hmem : s ∈ d.directors := getElemOpt_mem hslot
    rw [all_false_of_mem hmem hs, Bool.and_false]

theorem slotsPred_false (agid n : String) (emails : List String) :
    (!(mkDirectorSlots agid n emails).isEmpty &&
      (mkDirectorSlots agid n emails).all (fun s => s.signed)) = false := by
  cases emails with
  | nil => rfl
  | cons e es =>
    have h0 : (mkDirectorSlots agid n (e :: es)).all (fun s => s.signed)
        = false := by
      unfold mkDirectorSlots mapIdxFrom
      exact all_false_of_mem (List.mem_cons_self _ _) rfl
    rw [h0, Bool.and_false]

theorem inv_clientSignFinish (env : Env) (ag1 : Agreement)
    (agid docName sig : String)
    (hin1 : Inv ag1) (hcs1 : ag1.clientSigned = false) :
    Inv (clientSignFinish env ag1 agid docName sig).2 := by
  obtain ⟨hne, hcs, hds, h4⟩ := hin1
  have hdirs_empty : ∀ d ∈ ag1.documents, d.directors = [] := by
    intro d hd
    by_contra hcon
    have hc := h4 d hd hcon
    rw [hcs1] at hc
    cases hc
  have hstamp_dirs : ∀ d ∈ clientStamped env ag1 docName sig,
      d.directors = [] := by
    intro d hd
    rcases mem_updateFirst hd with h2 | ⟨x, hx, -, rfl⟩
    · exact hdirs_empty d h2
    · exact hdirs_empty x hx
  have hds_false : ag1.directorSigned = false := by
    rw [hds]
    obtain ⟨d0, hd0⟩ := List.exists_mem_of_ne_nil _ hne
    refine all_false_of_mem hd0 ?_
    rw [hdirs_empty d0 hd0]
    rfl
  have hlen_stamp : (clientStamped env ag1 docName sig).length
      = ag1.documents.length := by
    unfold clientStamped
    rw [length_updateFirst]
  have hstampne : clientStamped env ag1 docName sig ≠ [] := by
    intro hcon
    apply hne
    have hl := congrArg List.length hcon
    rw [hlen_stamp] at hl
    exact List.length_eq_zero.mp hl
  unfold clientSignFinish
  split
  · rename_i nextDoc hfind2
    have hndmem := List.mem_of_find?_eq_some hfind2
    have hndflag : nextDoc.clientSigned = false := by
      have hb := List.find?_some hfind2
      simpa using hb
    have hWne : withNextClientTok agid nextDoc.name
        (clientStamped env ag1 docName sig) ≠ [] := by
      intro hcon
      apply hstampne
      have hl := congrArg List.length hcon
      unfold withNextClientTok at hl
      rw [length_updateFirst] at hl
      exact List.length_eq_zero.mp hl
    have hWdirs : ∀ d ∈ withNextClientTok agid nextDoc.name
        (clientStamped env ag1 docName sig), d.directors = [] := by
      intro d hd
      rcases mem_updateFirst hd with h2 | ⟨x, hx, -, rfl⟩
      · exact hstamp_dirs d h2
      · exact hstamp_dirs x hx
    refine ⟨hWne, ?_, ?_, ?_⟩
    · show ag1.clientSigned = docsAllClient (withNextClientTok agid
        nextDoc.name (clientStamped env ag1 docName sig))
      have h1 : docsAllClient (withNextClientTok agid nextDoc.name
          (clientStamped env ag1 docName sig))
          = docsAllClient (clientStamped env ag1 docName sig) := by
        unfold docsAllClient withNextClientTok
        refine all_updateFirst_congr ?_ _
        intro d; rfl
      rw [hcs1, h1]
      exact (all_false_of_mem hndmem hndflag).symm
    · show ag1.directorSigned = docsAllDirectors (withNextClientTok agid
        nextDoc.name (clientStamped env ag1 docName sig))
      rw [hds_false]
      obtain ⟨d0, hd0⟩ := List.exists_mem_of_ne_nil _ hWne
      refine (all_false_of_mem hd0 ?_).symm
      rw [hWdirs d0 hd0]
      rfl
    · intro d hd hne2
      exact absurd (hWdirs d hd) hne2
  · rename_i hfind2
    have hall2 : ∀ d ∈ clientStamped env ag1 docName sig,
        d.clientSigned = true := by
      intro d hd
      have hb := List.find?_eq_none.mp hfind2 d hd
      simpa using hb
    have hW2ne : withDirectorSlots agid env.directorEmails
        (clientStamped env ag1 docName sig) ≠ [] := by
      intro hcon
      apply hstampne
      have hl := congrArg List.length hcon
      unfold withDirectorSlots at hl
      rw [List.length_map] at hl
      exact List.length_eq_zero.mp hl
    refine ⟨hW2ne, ?_, ?_, ?_⟩
    · show (true : Bool) = docsAllClient (withDirectorSlots agid
        env.directorEmails (clientStamped env ag1 docName sig))
      symm
      unfold docsAllClient withDirectorSlots
      rw [List.all_map, List.all_eq_true]
      intro d hd
      exact hall2 d hd
    · show ag1.directorSigned = docsAllDirectors (withDirectorSlots agid
        env.directorEmails (clientStamped env ag1 docName sig))
      rw [hds_false]
      symm
      unfold docsAllDirectors withDirectorSlots
      rw [List.all_map]
      obtain ⟨d0, hd0⟩ := List.exists_mem_of_ne_nil _ hstampne
      refine all_false_of_mem hd0 ?_
      exact slotsPred_false agid d0.name env.directorEmails
    · intro d hd hne2
      rfl

theorem inv_clientSign (env : Env) (c : TokenClaims) (sig : String)
    {ag : Agreement} (hin : Inv ag) : Inv (clientSign env ag c sig).2 := by
  unfold clientSign
  split
  · exact hin
  split
  · exact hin
  split
  · exact hin
  split
  · exact hin
  rename_i doc hfind
  split
  · exact hin
  rename_i hsigned
  split
  · exact hin
  split
  · exact hin
  rename_i ag1 hheal
  have hflagfalse : doc.clientSigned = false := by simpa using hsigned
  have hcs0 : ag.clientSigned = false := by
    rw [hin.2.1]
    exact all_false_of_mem (List.mem_of_find?_eq_some hfind) hflagfalse
  have hcs1 : ag1.clientSigned = false := by
    rw [(healClientDraft_flags hheal).1]
    exact hcs0
  exact inv_clientSignFinish env ag1 ag.id doc.name sig
    (inv_healClientDraft hheal hin) hcs1

theorem inv_directorSignFinish (env : Env) (ag1 : Agreement) (agid : String)
    (dIdx : Nat)
    (ha : ag1.documents ≠ [])
    (hb : ag1.clientSigned = docsAllClient ag1.documents)
    (he : ag1.clientSigned = true)
    (hc : ag1.directorSigned = false) :
    Inv (directorSignFinish env ag1 agid dIdx).2 := by
  have hallcs : docsAllClient ag1.documents = true := by rw [← hb]; exact he
  unfold directorSignFinish
  split
  · rename_i nextDoc hfind2
    have hndmem := List.mem_of_find?_eq_some hfind2
    have hndpred := List.find?_some hfind2
    have hndbad := directorNextPred_bad hndpred
    have hdsall : docsAllDirectors ag1.documents = false :=
      all_false_of_mem hndmem hndbad
    split
    · exact ⟨ha, hb, by rw [hc, hdsall], fun d hd hne2 => he⟩
    · rename_i s hslot2
      split
      · exact ⟨ha, hb, by rw [hc, hdsall], fun d hd hne2 => he⟩
      · have hsigned : s.signed = false := by
          unfold directorNextPred at hndpred
          rw [Bool.and_eq_true] at hndpred
          have h2 := hndpred.2
          rw [hslot2] at h2
          simpa using h2
        have hWne : withNextDirectorTok agid nextDoc.name dIdx s
            ag1.documents ≠ [] := by
          intro hcon
          apply ha
          have hl := congrArg List.length hcon
          unfold withNextDirectorTok at hl
          rw [length_updateFirst] at hl
          exact List.length_eq_zero.mp hl
        refine ⟨hWne, ?_, ?_, ?_⟩
        · show ag1.clientSigned = docsAllClient (withNextDirectorTok agid
            nextDoc.name dIdx s ag1.documents)
          rw [hb]
          unfold docsAllClient withNextDirectorTok
          refine (all_updateFirst_congr ?_ _).symm
          intro d; rfl
        · show ag1.directorSigned = docsAllDirectors (withNextDirectorTok
            agid nextDoc.name dIdx s ag1.documents)
          rw [hc]
          symm
          unfold docsAllDirectors withNextDirectorTok
          refine all_updateFirst_false ?_ hdsall
          intro x hx
          by_cases hlt : dIdx < x.directors.length
          · have hmem2 := mem_set_self hlt ({ s with directorSignToken := some (dirTok agid nextDoc.name dIdx) } : DirectorSlot)
            have hallf : (x.directors.set dIdx { s with directorSignToken := some (dirTok agid nextDoc.name dIdx) }).all
                  (fun s2 => s2.signed) = false :=
              all_false_of_mem hmem2 hsigned
            show (!(x.directors.set dIdx _).isEmpty &&
              (x.directors.set dIdx _).all (fun s2 => s2.signed)) = false
            rw [hallf, Bool.and_false]
          · have hnoop := set_of_length_le (Nat.le_of_not_lt hlt) ({ s with directorSignToken := some (dirTok agid nextDoc.name dIdx) } : DirectorSlot)
            show (!(x.directors.set dIdx _).isEmpty &&
              (x.directors.set dIdx _).all (fun s2 => s2.signed)) = false
            rw [hnoop]
            exact hx
        · intro d hd hne2
          exact he
  · rename_i hfind2
    split
    · rename_i hcomp
      refine ⟨ha, hb, ?_, fun d hd hne2 => he⟩
      show (true : Bool) = docsAllDirectors ag1.documents
      symm
      unfold allDirectorsComplete at hcomp
      unfold docsAllDirectors
      refine all_imp ?_ hcomp
      intro d hd2 hp
      simp only [Bool.and_eq_true] at hp ⊢
      tauto
    · rename_i hcomp
      refine ⟨ha, hb, ?_, fun d hd hne2 => he⟩
      show ag1.directorSigned = docsAllDirectors ag1.documents
      rw [hc]
      symm
      cases hh : docsAllDirectors ag1.documents with
      | false => rfl
      | true =>
        exfalso
        apply hcomp
        unfold allDirectorsComplete
        unfold docsAllDirectors at hh
        have hcs2 := List.all_eq_true.mp hallcs
        have hds2 := List.all_eq_true.mp hh
        rw [List.all_eq_true]
        intro d hd
        have h1 := hcs2 d hd
        have h2 := hds2 d hd
        simp only [Bool.and_eq_true] at h2 ⊢
        tauto

theorem inv_directorSign (env : Env) (c : TokenClaims) (sig : String)
    {ag : Agreement} (hin : Inv ag) : Inv (directorSign env ag c sig).2 := by
  obtain ⟨hne, hcs, hds, h4⟩ := hin
  have hin2 : Inv ag := ⟨hne, hcs, hds, h4⟩
  unfold directorSign
  split
  · exact hin2
  split
  · exact hin2
  split
  · exact hin2
  split
  · exact hin2
  rename_i doc hfind
  split
  · exact hin2
  rename_i hclient
  split
  · exact hin2
  rename_i dstate hslot
  split
  · exact hin2
  rename_i hnotsigned
  split
  · exact hin2
  split
  · exact hin2
  have hdocmem : doc ∈ ag.documents := List.mem_of_find?_eq_some hfind
  have hclient2 : doc.clientSigned = true := by simpa using hclient
  have hdirne : doc.directors ≠ [] := by
    intro hcon
    rw [hcon] at hslot
    simp at hslot
  have hagcs : ag.clientSigned = true := h4 doc hdocmem hdirne
  have hsl : dstate.signed = false := by simpa using hnotsigned
  have hslmem : dstate ∈ doc.directors := getElemOpt_mem hslot
  have hdocbad : (!doc.directors.isEmpty &&
      doc.directors.all (fun s => s.signed)) = false := by
    rw [all_false_of_mem hslmem hsl, Bool.and_false]
  have hdsfalse : ag.directorSigned = false := by
    rw [hds]
    exact all_false_of_mem hdocmem hdocbad
  refine inv_directorSignFinish env _ ag.id c.directorIndex ?_ ?_ ?_ ?_
  · show directorStamped env ag doc.name c.directorIndex dstate sig ≠ []
    intro hcon
    apply hne
    have hl := congrArg List.length hcon
    unfold directorStamped at hl
    rw [length_updateFirst] at hl
    exact List.length_eq_zero.mp hl
  · show ag.clientSigned = docsAllClient (directorStamped env ag doc.name
      c.directorIndex dstate sig)
    rw [hcs]
    unfold docsAllClient directorStamped
    refine (all_updateFirst_congr ?_ _).symm
    intro d; rfl
  · exact hagcs
  · exact hdsfalse

theorem inv_reachable {ag : Agreement} (h : Reachable ag) : Inv ag := by
  induction h with
  | init id biz email draftOf => exact inv_init id biz email draftOf
  | clientStep env c sig h ih => exact inv_clientSign env c sig ih
  | directorStep env c sig h ih => exact inv_directorSign env c sig ih
  | previewStep env c h ih => exact inv_previewState env c ih

/-- C4: in every reachable agreement state, the agreement-level
`clientSigned` flag is true exactly when every document's `clientSigned`
flag is true, and the agreement-level `directorSigned` flag is true
exactly when every document has a non-empty director-slot list all of
whose slots are signed. -/
theorem C4_aggregate_flags (ag : Agreement) (h : Reachable ag) :
    (ag.clientSigned = true ↔ ∀ d ∈ ag.documents, d.clientSigned = true) ∧
    (ag.directorSigned = true ↔ ∀ d ∈ ag.documents,
        d.directors ≠ [] ∧ ∀ s ∈ d.directors, s.signed = true) := by
  obtain ⟨hne, hcs, hds, h4⟩ := inv_reachable h
  constructor
  · rw [hcs]
    unfold docsAllClient
    exact List.all_eq_true
  · rw [hds]
    unfold docsAllDirectors
    rw [List.all_eq_true]
    constructor
    · intro hall d hd
      have h2 := hall d hd
      rw [Bool.and_eq_true] at h2
      constructor
      · intro hcon
        rw [hcon] at h2
        simp at h2
      · exact List.all_eq_true.mp h2.2
    · intro hall d hd
      obtain ⟨hne2, hsgn⟩ := hall d hd
      rw [Bool.and_eq_true]
      constructor
      · cases hdd : d.directors with
        | nil => exact absurd hdd hne2
        | cons x xs => rfl
      · exact List.all_eq_true.mpr hsgn

/-- Witness for C4 at a freshly submitted concrete agreement. -/
theorem C4_aggregate_flags_witness :
    ((initAgreement "A" "Biz" "e@x" fun _ => "d.pdf").clientSigned = true ↔
      ∀ d ∈ (initAgreement "A" "Biz" "e@x" fun _ => "d.pdf").documents,
        d.clientSigned = true) ∧
    ((initAgreement "A" "Biz" "e@x" fun _ => "d.pdf").directorSigned = true ↔
      ∀ d ∈ (initAgreement "A" "Biz" "e@x" fun _ => "d.pdf").documents,
        d.directors ≠ [] ∧ ∀ s ∈ d.directors, s.signed = true) :=
  C4_aggregate_flags _ (Reachable.init "A" "Biz" "e@x" fun _ => "d.pdf")

end Bpo
